import Mathlib

/-!
# M-JPEG streaming handlers (`http_client/main.go`)

A shallow embedding of the HTTP handlers `getAnimation` and `getSinewaves`, of the
frame builder `getJPEG`, and of the parts of the Go standard library they call
(`strconv.Itoa`, `image`, `image/draw`, `math`, `net/http`), followed by the properties
of the multipart framing, of the frame rasters and of the streaming sessions.

Conventions of the embedding:

* a Go `[]byte` (and a Go `string`, which is a byte sequence) is a `List UInt8`;
* a Go `int` is an `Int`; where the library checks for 64-bit overflow the check is kept;
* `float64` arithmetic is taken as a parameter `FloatArith R`: a rounding function and
  the library sine over an ordered field `R`, so that the same definitions run over `ℚ`
  and can be read over `ℝ`;
* the JPEG encoder is a parameter `enc : Image → Bytes`;
* the response writer is a parameter `Sink`, which says for each successive `Write`
  call whether it is accepted and whether the writer implements `http.Flusher`;
* a handler returns the trace of what it did to the writer, in `Except`: `ok` when the
  handler returns, `error` when it panics.
-/

namespace MJpeg

/-! ## Bytes and `strconv.Itoa` -/

/-- A Go byte slice. -/
abbrev Bytes := List UInt8

/-- The bytes of an ASCII string literal (`[]byte("...")`). -/
def ascii (s : String) : Bytes := s.toList.map (fun c => c.toNat.toUInt8)

/-- Go `len` of a byte slice. -/
def len (b : Bytes) : Int := (b.length : Int)

/-- The byte of the decimal digit `d`. -/
def digitByte (d : Nat) : UInt8 := (48 + d).toUInt8

/-- Decimal digits of a natural number, most significant first, `0` giving one digit
(the digit loop of `strconv.FormatInt` in base 10). -/
def formatNat (n : Nat) : Bytes :=
  if n < 10 then [digitByte n] else formatNat (n / 10) ++ [digitByte (n % 10)]
decreasing_by omega

/-- Model of `strconv.Itoa`: a minus sign before the digits of a negative number. -/
def Itoa (i : Int) : Bytes :=
  if i < 0 then (45 : UInt8) :: formatNat i.natAbs else formatNat i.toNat

/-! ## A length-aware reader of the stream (the client side) -/

/-- Whether a byte is an ASCII decimal digit. -/
def isDigit (b : UInt8) : Bool := decide (48 ≤ b.toNat) && decide (b.toNat ≤ 57)

/-- Decimal parse of a non-empty run of digits; `none` on anything else. -/
def parseNat (bs : Bytes) : Option Nat :=
  if bs = [] then none
  else bs.foldl
    (fun acc b => acc.bind fun a => if isDigit b then some (10 * a + (b.toNat - 48)) else none)
    (some 0)

/-- Removes the leading bytes `p` from `s`, or fails if `s` does not start with `p`. -/
def dropLeading : Bytes → Bytes → Option Bytes
  | [], s => some s
  | _ :: _, [] => none
  | a :: p, b :: s => if a = b then dropLeading p s else none

/-- The boundary token of the stream (`const boundary`). -/
def boundary : String := "abcd4321"

/-- The boundary delimiter line `[]byte("\r\n--" + boundary + "\r\n")`. -/
def delimiter : Bytes := ascii ("\r\n--" ++ boundary ++ "\r\n")

/-- The header bytes written before a payload:
`[]byte("Content-Type: image/jpeg\r\nContent-Length: " + strconv.Itoa(len(p)) + "\r\n\r\n")`. -/
def partHeader (p : Bytes) : Bytes :=
  ascii "Content-Type: image/jpeg\r\nContent-Length: " ++ Itoa (len p) ++ ascii "\r\n\r\n"

/-- Reads one part off the front of a stream positioned just after a delimiter line:
the two header lines, the decimal `Content-Length`, the blank line, that many payload
bytes and the delimiter line that follows. Returns the parsed length, the payload and
the rest of the stream. -/
def readPart (s : Bytes) : Option (Nat × Bytes × Bytes) :=
  (dropLeading (ascii "Content-Type: image/jpeg\r\nContent-Length: ") s).bind fun s1 =>
  (parseNat (s1.takeWhile isDigit)).bind fun n =>
  (dropLeading (ascii "\r\n\r\n") (s1.dropWhile isDigit)).bind fun s2 =>
  if s2.length < n then none
  else (dropLeading delimiter (s2.drop n)).bind fun s3 => some (n, s2.take n, s3)

/-- Reads up to `fuel` parts until the stream is used up. -/
def readParts : Nat → Bytes → Option (List Bytes)
  | _, [] => some []
  | 0, _ :: _ => none
  | fuel + 1, b :: s =>
    (readPart (b :: s)).bind fun r => (readParts fuel r.2.2).map fun ps => r.2.1 :: ps

/-- Reads a whole response body: the lead-in delimiter line, then parts to the end. -/
def readStream (body : Bytes) : Option (List Bytes) :=
  (dropLeading delimiter body).bind fun s => readParts s.length s

/-! ## The `image`, `image/color` and `image/draw` packages -/

/-- Go `image.Point`. -/
structure image.Point where
  X : Int
  Y : Int
deriving DecidableEq

/-- Go `image.Rectangle`: the points with `Min.X ≤ X < Max.X` and `Min.Y ≤ Y < Max.Y`. -/
structure image.Rectangle where
  Min : image.Point
  Max : image.Point
deriving DecidableEq

/-- Go `image.Rect`: the rectangle with the given corners, put in canonical order. -/
def image.Rect (x0 y0 x1 y1 : Int) : image.Rectangle :=
  { Min := ⟨if x0 > x1 then x1 else x0, if y0 > y1 then y1 else y0⟩
    Max := ⟨if x0 > x1 then x0 else x1, if y0 > y1 then y0 else y1⟩ }

/-- Go `Rectangle.Dx`. -/
def image.Rectangle.Dx (r : image.Rectangle) : Int := r.Max.X - r.Min.X

/-- Go `Rectangle.Dy`. -/
def image.Rectangle.Dy (r : image.Rectangle) : Int := r.Max.Y - r.Min.Y

/-- Go `Point.In`. -/
def image.Point.In (p : image.Point) (r : image.Rectangle) : Bool :=
  decide (r.Min.X ≤ p.X) && decide (p.X < r.Max.X) &&
    decide (r.Min.Y ≤ p.Y) && decide (p.Y < r.Max.Y)

/-- Go `Rectangle.Empty`. -/
def image.Rectangle.Empty (r : image.Rectangle) : Bool :=
  decide (r.Min.X ≥ r.Max.X) || decide (r.Min.Y ≥ r.Max.Y)

/-- Go `image.ZR`, the zero rectangle. -/
def image.ZR : image.Rectangle := ⟨⟨0, 0⟩, ⟨0, 0⟩⟩

/-- Go `Rectangle.Intersect`: the largest rectangle inside both, `image.ZR` when they do
not overlap. -/
def image.Rectangle.Intersect (r s : image.Rectangle) : image.Rectangle :=
  let t : image.Rectangle :=
    { Min := ⟨if r.Min.X < s.Min.X then s.Min.X else r.Min.X,
              if r.Min.Y < s.Min.Y then s.Min.Y else r.Min.Y⟩
      Max := ⟨if r.Max.X > s.Max.X then s.Max.X else r.Max.X,
              if r.Max.Y > s.Max.Y then s.Max.Y else r.Max.Y⟩ }
  if t.Empty then image.ZR else t

/-- Go `Rectangle.Add`: the rectangle moved by `p`. -/
def image.Rectangle.Add (r : image.Rectangle) (p : image.Point) : image.Rectangle :=
  ⟨⟨r.Min.X + p.X, r.Min.Y + p.Y⟩, ⟨r.Max.X + p.X, r.Max.Y + p.Y⟩⟩

/-- Go `color.RGBA`. -/
structure color.RGBA where
  R : UInt8
  G : UInt8
  B : UInt8
  A : UInt8
deriving DecidableEq

/-- Go `color.Color`, for the two concrete colour types the program uses. -/
inductive color.Color where
  | rgba (c : color.RGBA)
  | gray16 (y : UInt16)
deriving DecidableEq

/-- Go `color.White`. -/
def color.White : color.Color := .gray16 0xffff

/-- Go `image.RGBA`, with one entry of `Pix` per pixel (Go packs each pixel into four
consecutive bytes) and `Stride` counted in pixels. -/
structure image.RGBA where
  Pix : List color.RGBA
  Stride : Int
  Rect : image.Rectangle

/-- The value `image.NewRGBA` returns when it returns: a zeroed image with the given
bounds. -/
def image.blankRGBA (r : image.Rectangle) : image.RGBA :=
  { Pix := List.replicate (r.Dx * r.Dy).toNat ⟨0, 0, 0, 0⟩, Stride := r.Dx, Rect := r }

/-- Go `image.mul3NonNeg` on 64-bit integers: the product `x*y*z`, or `-1` when an
argument is negative or the product does not fit a non-negative `int`. -/
def image.mul3NonNeg (x y z : Int) : Int :=
  if x < 0 ∨ y < 0 ∨ z < 0 then -1
  else if 2 ^ 64 ≤ x * y then -1
  else if 2 ^ 64 ≤ x * y * z then -1
  else if 2 ^ 63 ≤ x * y * z then -1
  else x * y * z

/-- The largest byte count `make` accepts on a 64-bit platform (`maxAlloc` of the Go
runtime); a longer slice makes `make` panic. -/
def maxAlloc : Int := 2 ^ 48

/-- Go `image.NewRGBA`: `none` when the call panics, which it does when the buffer
length `4 * Dx * Dy` is rejected by `pixelBufferLength` (huge or negative dimensions)
or by `make`; otherwise a zeroed image with the given bounds. -/
def image.NewRGBA (r : image.Rectangle) : Option image.RGBA :=
  if image.mul3NonNeg 4 r.Dx r.Dy < 0 then none
  else if maxAlloc < image.mul3NonNeg 4 r.Dx r.Dy then none
  else some (image.blankRGBA r)

/-- Go `(*RGBA).Bounds`. -/
def image.RGBA.Bounds (p : image.RGBA) : image.Rectangle := p.Rect

/-- Go `(*RGBA).PixOffset`, in pixels. -/
def image.RGBA.PixOffset (p : image.RGBA) (x y : Int) : Int :=
  (y - p.Rect.Min.Y) * p.Stride + (x - p.Rect.Min.X)

/-- Go `(*RGBA).SetRGBA`: points outside the bounds are ignored. -/
def image.RGBA.SetRGBA (p : image.RGBA) (x y : Int) (c : color.RGBA) : image.RGBA :=
  if image.Point.In ⟨x, y⟩ p.Rect then { p with Pix := p.Pix.set (p.PixOffset x y).toNat c }
  else p

/-- Go `(*RGBA).RGBAAt`: the zero colour outside the bounds. -/
def image.RGBA.RGBAAt (p : image.RGBA) (x y : Int) : color.RGBA :=
  if image.Point.In ⟨x, y⟩ p.Rect then p.Pix.getD (p.PixOffset x y).toNat ⟨0, 0, 0, 0⟩
  else ⟨0, 0, 0, 0⟩

/-- Go `image.Uniform`: an image of one colour. -/
structure image.Uniform where
  C : color.RGBA

/-- Go `(*Uniform).Bounds`: the square from `-1e9` to `1e9`. -/
def image.Uniform.Bounds (_ : image.Uniform) : image.Rectangle :=
  ⟨⟨-1000000000, -1000000000⟩, ⟨1000000000, 1000000000⟩⟩

/-- The integers `lo, lo + 1, ..., hi - 1` (the index range of a Go counting loop). -/
def intRange (lo hi : Int) : List Int :=
  (List.range (hi - lo).toNat).map fun (i : Nat) => lo + (i : Int)

/-- Go `draw.Draw(dst, r, src, image.ZP, draw.Src)` for a uniform source: `r` is
clipped to the bounds of `dst` and to the bounds of `src` moved to the corner of `r`
(the source point being `image.ZP`), and every point of what is left takes the colour
of the source. -/
def draw.Draw (dst : image.RGBA) (r : image.Rectangle) (src : image.Uniform) : image.RGBA :=
  let clipped := (r.Intersect dst.Bounds).Intersect (src.Bounds.Add r.Min)
  (intRange clipped.Min.Y clipped.Max.Y).foldl
    (fun im y => (intRange clipped.Min.X clipped.Max.X).foldl
      (fun im x => im.SetRGBA x y src.C) im) dst

/-- Go `image.Paletted`: `Pix` holds one palette index per pixel. -/
structure image.Paletted where
  Pix : List UInt8
  Stride : Int
  Rect : image.Rectangle
  Palette : List color.Color

/-- Go `image.NewPaletted`: every pixel has index 0. -/
def image.NewPaletted (r : image.Rectangle) (p : List color.Color) : image.Paletted :=
  { Pix := List.replicate (r.Dx * r.Dy).toNat 0, Stride := r.Dx, Rect := r, Palette := p }

/-- Go `(*Paletted).PixOffset`. -/
def image.Paletted.PixOffset (p : image.Paletted) (x y : Int) : Int :=
  (y - p.Rect.Min.Y) * p.Stride + (x - p.Rect.Min.X) * 1

/-- Go `(*Paletted).SetColorIndex`: points outside the bounds are ignored. -/
def image.Paletted.SetColorIndex (p : image.Paletted) (x y : Int) (index : UInt8) :
    image.Paletted :=
  if image.Point.In ⟨x, y⟩ p.Rect then { p with Pix := p.Pix.set (p.PixOffset x y).toNat index }
  else p

/-- Go `(*Paletted).ColorIndexAt`: index 0 outside the bounds. -/
def image.Paletted.ColorIndexAt (p : image.Paletted) (x y : Int) : UInt8 :=
  if image.Point.In ⟨x, y⟩ p.Rect then p.Pix.getD (p.PixOffset x y).toNat 0 else 0

/-- Go `image.Image`, for the two image types the program encodes. -/
inductive Image where
  | rgba (im : image.RGBA)
  | paletted (im : image.Paletted)

/-! ## Colours and `getJPEG` -/

/-- The colour `blue` of the program. -/
def blue : color.RGBA := ⟨0, 0, 255, 255⟩

/-- The colour `red` of the program. -/
def red : color.RGBA := ⟨255, 0, 0, 255⟩

/-- The colour `green` of the program. -/
def green : color.RGBA := ⟨0, 255, 0, 255⟩

/-- The colour `yellow` of the program. -/
def yellow : color.RGBA := ⟨255, 255, 0, 255⟩

/-- The raster `getJPEG` hands to the encoder when `image.NewRGBA` returns: the zeroed
image of `image.NewRGBA(image.Rect(0, 0, w, h))` after
`draw.Draw(im, im.Bounds(), &image.Uniform{color}, image.ZP, draw.Src)`. -/
def solidFrame (w h : Int) (c : color.RGBA) : image.RGBA :=
  let im := image.blankRGBA (image.Rect 0 0 w h)
  draw.Draw im im.Bounds ⟨c⟩

/-- The function `getJPEG`: `none` when `image.NewRGBA` panics, otherwise the bytes
`jpeg.Encode` leaves in the buffer for the raster; `enc` stands for the encoder, whose
error the function discards. -/
def getJPEG (enc : Image → Bytes) (w h : Int) (c : color.RGBA) : Option Bytes :=
  (image.NewRGBA (image.Rect 0 0 w h)).map fun im => enc (.rgba (draw.Draw im im.Bounds ⟨c⟩))

/-! ## `float64` arithmetic and the wave frame -/

/-- What the program needs of `float64`: `rnd` rounds the exact result of an operation
to the value the machine stores, and `sin` is `math.Sin`. A `float64` value is a number
of the ordered field `R`. -/
structure FloatArith (R : Type) where
  rnd : R → R
  sin : R → R

/-- The properties of `float64` the proofs rely on: rounding is monotone, integers of
magnitude up to `2 ^ 53` are stored exactly, and `math.Sin` stays within `[-1, 1]`. -/
structure FloatArith.Sound {R : Type} [LinearOrderedField R] (F : FloatArith R) : Prop where
  rnd_mono : ∀ a b : R, a ≤ b → F.rnd a ≤ F.rnd b
  rnd_int : ∀ k : Int, -(2 ^ 53) ≤ k → k ≤ 2 ^ 53 → F.rnd (k : R) = (k : R)
  sin_lower : ∀ a : R, -1 ≤ F.sin a
  sin_upper : ∀ a : R, F.sin a ≤ 1

/-- Go conversion `int(y)` of a `float64`: the fraction is discarded. -/
def toInt {R : Type} [LinearOrderedField R] [FloorRing R] (y : R) : Int :=
  if 0 ≤ y then ⌊y⌋ else ⌈y⌉

/-- Exact rational arithmetic with a cubic approximation of the sine, cut to
`[-1, 1]`: an instance on which the definitions can be run. -/
def ratArith : FloatArith ℚ :=
  { rnd := fun q => q, sin := fun q => max (-1) (min 1 (q - q ^ 3 / 6)) }

/-- The constant `width` of `getSinewaves`. -/
def width : Nat := 400

/-- The constant `height` of `getSinewaves`. -/
def height : Nat := 300

/-- The constant `nframes` of `getSinewaves`. -/
def nframes : Nat := 60

/-- The constant `whiteIndex` of `getSinewaves`. -/
def whiteIndex : UInt8 := 0

/-- The constant `blueIndex` of `getSinewaves`. -/
def blueIndex : UInt8 := 1

/-- The variable `palette` of `getSinewaves`. -/
def palette : List color.Color := [color.White, .rgba blue]

/-- The value `x := float64(n)` of the inner loop. -/
def waveX {R : Type} [LinearOrderedField R] (F : FloatArith R) (n : Nat) : R :=
  F.rnd (n : R)

/-- The value `y := a*math.Sin(x*b+c) + d` of the inner loop, for column `n` of frame
`t`, with `a := height / 3.0`, `b := 0.01`, `c := float64(t) / 6.0`, `d := height / 2.0`;
every operation is rounded. -/
def waveY {R : Type} [LinearOrderedField R] (F : FloatArith R) (t n : Nat) : R :=
  let x := waveX F n
  let a := F.rnd ((height : R) / 3)
  let b := F.rnd (1 / 100)
  let c := F.rnd (F.rnd (t : R) / 6)
  let d := F.rnd ((height : R) / 2)
  F.rnd (F.rnd (a * F.sin (F.rnd (F.rnd (x * b) + c))) + d)

/-- The image of frame `t` when the inner loop `for n := 0; n < width; n++` is done:
a fresh paletted image in which each round sets one pixel through
`img.SetColorIndex(int(x), int(y), blueIndex)`. -/
def waveFrame {R : Type} [LinearOrderedField R] [FloorRing R] (F : FloatArith R) (t : Nat) :
    image.Paletted :=
  (List.range width).foldl
    (fun img n => img.SetColorIndex (toInt (waveX F n)) (toInt (waveY F t n)) blueIndex)
    (image.NewPaletted (image.Rect 0 0 width height) palette)

/-! ## The response writer -/

/-- What a handler does to its response writer and to the outside, in order. A `write`
carries the bytes passed to `w.Write` and whether the writer accepted them. -/
inductive Event where
  | header (key value : String)
  | write (data : Bytes) (ok : Bool)
  | flush
  | sleep (nanos : Nat)
  | log (msg : String)
deriving DecidableEq

/-- The events of a handler so far, oldest first. -/
abbrev Trace := List Event

/-- A response writer as the handler sees it: `accepts k` tells whether the call of
`Write` number `k` (from 0) succeeds, `flusher` whether `w.(http.Flusher)` succeeds. -/
structure Sink where
  accepts : Nat → Bool
  flusher : Bool

/-- Number of calls of `Write` in a trace. -/
def writeCount : Trace → Nat
  | [] => 0
  | .write _ _ :: tr => writeCount tr + 1
  | _ :: tr => writeCount tr

/-- The call `w.Write(data)`; the handlers discard its result. -/
def Write (s : Sink) (tr : Trace) (data : Bytes) : Trace :=
  tr ++ [.write data (s.accepts (writeCount tr))]

/-- The call `f.Flush()` on the value `f` of `f, ok := w.(http.Flusher)`: when the
assertion failed `f` is the nil interface and the call panics. -/
def Flush (s : Sink) (tr : Trace) : Except Trace Trace :=
  if s.flusher then .ok (tr ++ [.flush]) else .error tr

/-- The call `time.Sleep(d)`. -/
def Sleep (tr : Trace) (d : Nat) : Trace := tr ++ [.sleep d]

/-- The call `log.Println(msg)`. -/
def Println (tr : Trace) (msg : String) : Trace := tr ++ [.log msg]

/-- The call `w.Header().Set(key, value)`. -/
def HeaderSet (tr : Trace) (key value : String) : Trace := tr ++ [.header key value]

/-- Go `time.Millisecond`, in nanoseconds. -/
def Millisecond : Nat := 1000000

/-- The bytes the client receives: the data of the accepted writes, in order. -/
def body : Trace → Bytes
  | [] => []
  | .write data true :: tr => data ++ body tr
  | _ :: tr => body tr

/-- The data of every call of `Write`, accepted or not, in order. -/
def attempts : Trace → List Bytes
  | [] => []
  | .write data _ :: tr => data :: attempts tr
  | _ :: tr => attempts tr

/-- The result of every call of `Write`, in order. -/
def results : Trace → List Bool
  | [] => []
  | .write _ ok :: tr => ok :: results tr
  | _ :: tr => results tr

/-- The result of a call that may panic, inside a handler with the trace `tr`. -/
def orPanic {α : Type} (tr : Trace) : Option α → Except Trace α
  | some a => .ok a
  | none => .error tr

/-! ## The handlers -/

/-- The handler `getAnimation`. -/
def getAnimation (enc : Image → Bytes) (s : Sink) : Except Trace Trace := do
  let size : Int := 200
  let delay : Nat := 500 * Millisecond
  let tr : Trace := []
  let tr := if !s.flusher then Println tr "HTTP buffer flushing is not implemented" else tr
  let imgRed ← orPanic tr (getJPEG enc size size red)
  let imgYellow ← orPanic tr (getJPEG enc size size yellow)
  let imgGreen ← orPanic tr (getJPEG enc size size green)
  let tr := HeaderSet tr "Content-Type" ("multipart/x-mixed-replace; boundary=" ++ boundary)
  let tr := Write s tr (ascii ("\r\n--" ++ boundary ++ "\r\n"))
  let tr := Write s tr (ascii "Content-Type: image/jpeg\r\nContent-Length: "
    ++ Itoa (len imgRed) ++ ascii "\r\n\r\n")
  let tr := Write s tr imgRed
  let tr := Write s tr (ascii ("\r\n--" ++ boundary ++ "\r\n"))
  let tr ← Flush s tr
  let tr := Sleep tr delay
  let tr := Write s tr (ascii "Content-Type: image/jpeg\r\nContent-Length: "
    ++ Itoa (len imgYellow) ++ ascii "\r\n\r\n")
  let tr := Write s tr imgYellow
  let tr := Write s tr (ascii ("\r\n--" ++ boundary ++ "\r\n"))
  let tr ← Flush s tr
  let tr := Sleep tr delay
  let tr := Write s tr (ascii "Content-Type: image/jpeg\r\nContent-Length: "
    ++ Itoa (len imgGreen) ++ ascii "\r\n\r\n")
  let tr := Write s tr imgGreen
  let tr := Write s tr (ascii ("\r\n--" ++ boundary ++ "\r\n"))
  return tr

/-- The loop `for t := 0; t < nframes; t++` of `getSinewaves`, entered at index `t` with
`rounds` rounds to go. -/
def sinewavesLoop {R : Type} [LinearOrderedField R] [FloorRing R] (F : FloatArith R)
    (enc : Image → Bytes) (s : Sink) : Nat → Nat → Trace → Except Trace Trace
  | 0, _, tr => .ok tr
  | rounds + 1, t, tr => do
    let delay : Nat := 50 * Millisecond
    let img := waveFrame F t
    let imgBytes := enc (.paletted img)
    let tr := if t = 0 then Write s tr (ascii ("\r\n--" ++ boundary ++ "\r\n")) else tr
    let tr := Write s tr (ascii "Content-Type: image/jpeg\r\nContent-Length: "
      ++ Itoa (len imgBytes) ++ ascii "\r\n\r\n")
    let tr := Write s tr imgBytes
    let tr := Write s tr (ascii ("\r\n--" ++ boundary ++ "\r\n"))
    let tr ← Flush s tr
    let tr := Sleep tr delay
    sinewavesLoop F enc s rounds (t + 1) tr

/-- The handler `getSinewaves`. -/
def getSinewaves {R : Type} [LinearOrderedField R] [FloorRing R] (F : FloatArith R)
    (enc : Image → Bytes) (s : Sink) : Except Trace Trace :=
  let tr : Trace := []
  let tr := if !s.flusher then Println tr "HTTP buffer flushing is not implemented" else tr
  let tr := HeaderSet tr "Content-Type" ("multipart/x-mixed-replace; boundary=" ++ boundary)
  sinewavesLoop F enc s nframes 0 tr

/-! ## Reading a trace -/

/-- The phases of a session. -/
inductive Phase where
  | part
  | flush
  | wait (nanos : Nat)
deriving DecidableEq

/-- The phases of a trace: a run of consecutive writes counts as one written part, a
flush and a sleep each as themselves; header and log events are left out. -/
def phases : Trace → List Phase
  | [] => []
  | .write _ _ :: tr =>
    match phases tr with
    | .part :: ps => .part :: ps
    | ps => .part :: ps
  | .flush :: tr => .flush :: phases tr
  | .sleep d :: tr => .wait d :: phases tr
  | .header _ _ :: tr => phases tr
  | .log _ :: tr => phases tr

/-- A sink that accepts every write and can flush. -/
def goodSink : Sink := { accepts := fun _ => true, flusher := true }

/-- A sink that accepts every write and cannot flush. -/
def plainSink : Sink := { accepts := fun _ => true, flusher := false }

/-- An encoder with a recognisable output: one byte telling the kind of image followed
by one byte per pixel that is not zero. -/
def tallyEncoder : Image → Bytes
  | .rgba im => 0 :: (im.Pix.filter fun c => c ≠ ⟨0, 0, 0, 0⟩).map fun c => c.R
  | .paletted im => 1 :: im.Pix.filter fun i => i ≠ 0

/-! ## The wire format and the reference sequences -/

/-- The decimal numeral of a natural number, as `Nat.repr` writes it. -/
def decimal (n : Nat) : Bytes := ascii (Nat.repr n)

/-- One part of the stream as the wire format lays it out: delimiter line, content
type line, content length line, blank line, payload. -/
def wirePart (p : Bytes) : Bytes :=
  ascii "\r\n--abcd4321\r\n" ++ ascii "Content-Type: image/jpeg\r\n" ++ ascii "Content-Length: "
    ++ decimal p.length ++ ascii "\r\n" ++ ascii "\r\n" ++ p

/-- The stream of a sequence of payloads in the wire format: the parts in order, then
one closing delimiter line. -/
def wireStream : List Bytes → Bytes
  | [] => ascii "\r\n--abcd4321\r\n"
  | p :: ps => wirePart p ++ wireStream ps

/-- The payloads of the three sample images of `getAnimation`, in the order sent. -/
def animationPayloads (enc : Image → Bytes) : List Bytes :=
  [enc (.rgba (solidFrame 200 200 red)), enc (.rgba (solidFrame 200 200 yellow)),
    enc (.rgba (solidFrame 200 200 green))]

/-- The payloads of the wave frames `0, 1, ..., 59`. -/
def wavePayloads {R : Type} [LinearOrderedField R] [FloorRing R] (F : FloatArith R)
    (enc : Image → Bytes) : List Bytes :=
  (List.range 60).map fun k => enc (.paletted (waveFrame F k))

/-- The events of the rounds of `getSinewaves` for the payloads `ps`, when `k` writes
came before: per payload the header, the payload, the delimiter, a flush and a sleep. -/
def roundEvents (s : Sink) (delay : Nat) : Nat → List Bytes → Trace
  | _, [] => []
  | k, p :: ps =>
    [.write (partHeader p) (s.accepts k), .write p (s.accepts (k + 1)),
      .write delimiter (s.accepts (k + 2)), .flush, .sleep delay] ++
      roundEvents s delay (k + 3) ps

/-- The stream after the lead-in: per payload the header, the payload and a delimiter. -/
def tailStream : List Bytes → Bytes
  | [] => []
  | p :: ps => partHeader p ++ p ++ delimiter ++ tailStream ps

/-- A sink that accepts the writes numbered below `j` and rejects every later one. -/
def deadSink (j : Nat) : Sink := { accepts := fun k => decide (k < j), flusher := true }

/-- The phases of `n` rounds of write part, flush, wait. -/
def cycles (delay : Nat) : Nat → List Phase
  | 0 => []
  | n + 1 => .part :: .flush :: .wait delay :: cycles delay n

/-- Number of parts that got through, from the results of the writes in order: a part
counts when the delimiter line before it, its header, its payload and the delimiter
line after it were all accepted (three writes per part after the lead-in). -/
def partsOk : List Bool → Nat
  | d :: h :: p :: rest =>
    (match rest with
      | e :: _ => if d && h && p && e then 1 else 0
      | [] => 0) + partsOk rest
  | _ => 0

/-- Number of parts of a session that were written successfully. -/
def successfulParts (tr : Trace) : Nat := partsOk (results tr)

/-- The writes after the lead-in for the payloads `ps`: header, payload, delimiter. -/
def partWrites : List Bytes → List Bytes
  | [] => []
  | p :: ps => partHeader p :: p :: delimiter :: partWrites ps

/-- The state of a `W` by `H` image while `draw.Draw` fills it row by row: the bounds
and the stride are those of a fresh image and the first `k` pixels, in row order, have
the colour `c`, the others still the zero colour. -/
def FilledTo (W H : Nat) (c : color.RGBA) (k : Nat) (im : image.RGBA) : Prop :=
  im.Rect = ⟨⟨0, 0⟩, ⟨(W : Int), (H : Int)⟩⟩ ∧ im.Stride = (W : Int) ∧ im.Pix.length = W * H ∧
    ∀ i, i < W * H → im.Pix[i]? = some (if i < k then c else ⟨0, 0, 0, 0⟩)

/-! ## A reader that looks for the delimiter -/

/-- Splits a stream at the first occurrence of the delimiter line: the bytes before it
and the bytes after it; `none` when the delimiter line does not occur. -/
def splitAtDelimiter : Bytes → Option (Bytes × Bytes)
  | [] => none
  | b :: s =>
    match dropLeading delimiter (b :: s) with
    | some r => some ([], r)
    | none => (splitAtDelimiter s).map fun x => (b :: x.1, x.2)

/-- Reads one part off the front of a stream positioned just after a delimiter line,
taking as payload the bytes between the blank line and the next delimiter line. Returns
the parsed `Content-Length`, those bytes and the rest of the stream. -/
def scanPart (s : Bytes) : Option (Nat × Bytes × Bytes) :=
  (dropLeading (ascii "Content-Type: image/jpeg\r\nContent-Length: ") s).bind fun s1 =>
  (parseNat (s1.takeWhile isDigit)).bind fun n =>
  (dropLeading (ascii "\r\n\r\n") (s1.dropWhile isDigit)).bind fun s2 =>
  (splitAtDelimiter s2).map fun x => (n, x.1, x.2)

/-- Reads up to `fuel` parts with `scanPart` until the stream is used up: per part the
parsed `Content-Length` and the bytes found before the next delimiter line. -/
def scanParts : Nat → Bytes → Option (List (Nat × Bytes))
  | _, [] => some []
  | 0, _ :: _ => none
  | fuel + 1, b :: s =>
    (scanPart (b :: s)).bind fun r => (scanParts fuel r.2.2).map fun ps => (r.1, r.2.1) :: ps

/-- Reads a whole response body with `scanPart`: the lead-in delimiter line, then parts
to the end. -/
def scanStream (body : Bytes) : Option (List (Nat × Bytes)) :=
  (dropLeading delimiter body).bind fun s => scanParts s.length s

/-- A payload in and after which the delimiter line does not show up early: in the
payload followed by a delimiter line, the first delimiter line is the one that
follows. -/
def DelimiterFree (p : Bytes) : Prop := splitAtDelimiter (p ++ delimiter) = some (p, [])

/-- An encoder whose output is the bytes of the delimiter line. -/
def delimiterEncoder : Image → Bytes := fun _ => delimiter

/-- An encoder whose output is the start and end markers of a JPEG file. -/
def markerEncoder : Image → Bytes := fun _ => [255, 216, 255, 217]

end MJpeg
namespace MJpeg

/-! ## Facts about the decimal conversion and the reader -/

theorem digitByte_toNat (d : Nat) (h : d < 10) : (digitByte d).toNat = 48 + d := by
  simp [digitByte, Nat.toUInt8, UInt8.ofNat]
  omega

theorem isDigit_digitByte (d : Nat) (h : d < 10) : isDigit (digitByte d) = true := by
  simp [isDigit, digitByte_toNat d h]
  omega


theorem formatNat_ne_nil (n : Nat) : formatNat n ≠ [] := by
  rw [formatNat]
  split <;> simp

theorem formatNat_digits (n : Nat) : ∀ b ∈ formatNat n, isDigit b = true := by
  induction n using Nat.strong_induction_on with
  | _ n ih =>
    rw [formatNat]
    split
    · intro b hb
      simp only [List.mem_singleton] at hb
      subst hb
      exact isDigit_digitByte n (by omega)
    · intro b hb
      rcases List.mem_append.mp hb with h | h
      · exact ih (n / 10) (by omega) b h
      · simp only [List.mem_singleton] at h
        subst h
        exact isDigit_digitByte _ (by omega)

theorem parseNat_formatNat (n : Nat) : parseNat (formatNat n) = some n := by
  unfold parseNat
  rw [if_neg (formatNat_ne_nil n)]
  induction n using Nat.strong_induction_on with
  | _ n ih =>
    rw [formatNat]
    split
    · rename_i h
      simp [isDigit_digitByte n h, digitByte_toNat n h]
    · rename_i h
      rw [List.foldl_append, ih (n / 10) (by omega)]
      have h10 : n % 10 < 10 := Nat.mod_lt _ (by decide)
      simp [isDigit_digitByte _ h10, digitByte_toNat _ h10]
      omega

theorem Itoa_len (p : Bytes) : Itoa (len p) = formatNat p.length := by
  simp [Itoa, len]

theorem dropLeading_append (p s : Bytes) : dropLeading p (p ++ s) = some s := by
  induction p with
  | nil => cases s <;> rfl
  | cons a p ih => simpa [dropLeading] using ih

theorem ascii_blank : ascii "\r\n\r\n" = [13, 10, 13, 10] := by
  decide

theorem isDigit_cr : isDigit 13 = false := by decide

theorem readPart_part (p rest : Bytes) :
    readPart (partHeader p ++ p ++ delimiter ++ rest) = some (p.length, p, rest) := by
  unfold readPart partHeader
  simp only [List.append_assoc, dropLeading_append, Option.bind_some, Itoa_len]
  rw [ascii_blank]
  simp only [Option.some_bind]
  rw [List.takeWhile_append_of_pos (formatNat_digits _),
    List.dropWhile_append_of_pos (formatNat_digits _)]
  have e : ([13, 10, 13, 10] : Bytes) ++ (p ++ (delimiter ++ rest))
      = 13 :: ([10, 13, 10] ++ (p ++ (delimiter ++ rest))) := rfl
  rw [e, List.takeWhile_cons_of_neg (by simp [isDigit_cr]),
    List.dropWhile_cons_of_neg (by simp [isDigit_cr]), List.append_nil, parseNat_formatNat]
  have e2 : (13 : UInt8) :: ([10, 13, 10] ++ (p ++ (delimiter ++ rest)))
      = [13, 10, 13, 10] ++ (p ++ (delimiter ++ rest)) := rfl
  simp only [Option.some_bind, e2, dropLeading_append, List.length_append, List.drop_left,
    List.take_left]
  simp

end MJpeg

namespace MJpeg

/-! ## Facts about traces -/

@[simp] theorem writeCount_append (a b : Trace) :
    writeCount (a ++ b) = writeCount a + writeCount b := by
  induction a with
  | nil => simp [writeCount]
  | cons e a ih => cases e <;> simp [writeCount, ih]; omega

@[simp] theorem body_append (a b : Trace) : body (a ++ b) = body a ++ body b := by
  induction a with
  | nil => simp [body]
  | cons e a ih =>
    cases e with
    | write d ok => cases ok <;> simp [body, ih]
    | _ => simp [body, ih]

@[simp] theorem attempts_append (a b : Trace) :
    attempts (a ++ b) = attempts a ++ attempts b := by
  induction a with
  | nil => simp [attempts]
  | cons e a ih => cases e <;> simp [attempts, ih]

@[simp] theorem results_append (a b : Trace) : results (a ++ b) = results a ++ results b := by
  induction a with
  | nil => simp [results]
  | cons e a ih => cases e <;> simp [results, ih]

theorem delimiter_eq : ascii ("\r\n--" ++ boundary ++ "\r\n") = delimiter := rfl

theorem partHeader_eq (p : Bytes) :
    ascii "Content-Type: image/jpeg\r\nContent-Length: " ++ Itoa (len p) ++ ascii "\r\n\r\n"
      = partHeader p := rfl

theorem rect_natCast (W H : Nat) :
    image.Rect 0 0 (W : Int) (H : Int) = ⟨⟨0, 0⟩, ⟨(W : Int), (H : Int)⟩⟩ := by
  have h1 : ¬ (0 : Int) > (W : Int) := by omega
  have h2 : ¬ (0 : Int) > (H : Int) := by omega
  simp [image.Rect, h1, h2]

theorem newRGBA_natCast (W H : Nat) (hH : 1 ≤ H) (h : 4 * W * H ≤ 2 ^ 48) :
    image.NewRGBA ⟨⟨0, 0⟩, ⟨(W : Int), (H : Int)⟩⟩
      = some (image.blankRGBA ⟨⟨0, 0⟩, ⟨(W : Int), (H : Int)⟩⟩) := by
  have hc : (4 : Int) * (W : Int) * (H : Int) ≤ 2 ^ 48 := by exact_mod_cast h
  have h1 : (0 : Int) ≤ 4 * (W : Int) * (H : Int) := by positivity
  have hW : (4 : Int) * (W : Int) ≤ 4 * (W : Int) * (H : Int) := by
    have : (1 : Int) ≤ (H : Int) := by exact_mod_cast hH
    have : (0 : Int) ≤ 4 * (W : Int) := by positivity
    nlinarith
  have p64 : (2 : Int) ^ 48 < 2 ^ 64 := by norm_num
  have p63 : (2 : Int) ^ 48 < 2 ^ 63 := by norm_num
  have e : image.mul3NonNeg 4 (W : Int) (H : Int) = 4 * (W : Int) * (H : Int) := by
    unfold image.mul3NonNeg
    rw [if_neg (by omega), if_neg (by omega), if_neg (by omega), if_neg (by omega)]
  unfold image.NewRGBA
  simp only [image.Rectangle.Dx, image.Rectangle.Dy, sub_zero, e]
  rw [if_neg (by omega), if_neg (by unfold maxAlloc; omega)]

theorem getJPEG_natCast (enc : Image → Bytes) (W H : Nat) (c : color.RGBA) (hH : 1 ≤ H)
    (h : 4 * W * H ≤ 2 ^ 48) :
    getJPEG enc (W : Int) (H : Int) c = some (enc (.rgba (solidFrame (W : Int) (H : Int) c))) := by
  unfold getJPEG solidFrame
  rw [rect_natCast, newRGBA_natCast W H hH h]
  rfl

theorem getJPEG_sample (enc : Image → Bytes) (c : color.RGBA) :
    getJPEG enc 200 200 c = some (enc (.rgba (solidFrame 200 200 c))) :=
  getJPEG_natCast enc 200 200 c (by norm_num) (by norm_num)

/-- The trace of `getAnimation` on a writer that can flush. -/
theorem getAnimation_trace (enc : Image → Bytes) (s : Sink) (hf : s.flusher = true) :
    getAnimation enc s = .ok
      [ .header "Content-Type" "multipart/x-mixed-replace; boundary=abcd4321",
        .write delimiter (s.accepts 0),
        .write (partHeader (enc (.rgba (solidFrame 200 200 red)))) (s.accepts 1),
        .write (enc (.rgba (solidFrame 200 200 red))) (s.accepts 2),
        .write delimiter (s.accepts 3), .flush, .sleep 500000000,
        .write (partHeader (enc (.rgba (solidFrame 200 200 yellow)))) (s.accepts 4),
        .write (enc (.rgba (solidFrame 200 200 yellow))) (s.accepts 5),
        .write delimiter (s.accepts 6), .flush, .sleep 500000000,
        .write (partHeader (enc (.rgba (solidFrame 200 200 green)))) (s.accepts 7),
        .write (enc (.rgba (solidFrame 200 200 green))) (s.accepts 8),
        .write delimiter (s.accepts 9) ] := by
  simp only [getAnimation, delimiter_eq, partHeader_eq, getJPEG_sample, orPanic]
  simp [Flush, hf, Write, Sleep, HeaderSet, bind, Except.bind, pure, Except.pure,
    writeCount, Millisecond, boundary]

/-- The rounds of the loop of `getSinewaves` after the first, on a writer that can
flush: the loop returns, having appended the events of its rounds. -/
theorem sinewavesLoop_trace {R : Type} [LinearOrderedField R] [FloorRing R] (F : FloatArith R)
    (enc : Image → Bytes) (s : Sink) (hf : s.flusher = true) :
    ∀ (rounds t : Nat) (tr : Trace), 0 < t →
      sinewavesLoop F enc s rounds t tr = .ok (tr ++ roundEvents s 50000000 (writeCount tr)
        ((List.range' t rounds).map fun k => enc (.paletted (waveFrame F k)))) := by
  intro rounds
  induction rounds with
  | zero => intro t tr _; simp [sinewavesLoop, roundEvents]
  | succ r ih =>
    intro t tr ht
    have h0 : t ≠ 0 := by omega
    simp only [sinewavesLoop, delimiter_eq, partHeader_eq, h0, if_false, Flush, hf, if_true,
      bind, Except.bind]
    rw [ih (t + 1) _ (by omega)]
    simp [Write, Sleep, writeCount, roundEvents, List.range'_succ, Millisecond]

/-- The trace of `getSinewaves` on a writer that can flush. -/
theorem getSinewaves_trace {R : Type} [LinearOrderedField R] [FloorRing R] (F : FloatArith R)
    (enc : Image → Bytes) (s : Sink) (hf : s.flusher = true) :
    getSinewaves F enc s = .ok
      ([ .header "Content-Type" "multipart/x-mixed-replace; boundary=abcd4321",
         .write delimiter (s.accepts 0) ] ++ roundEvents s 50000000 1 (wavePayloads F enc)) := by
  have e : nframes = 59 + 1 := rfl
  have e2 : List.range 60 = 0 :: List.range' 1 59 := by
    rw [List.range_eq_range', List.range'_succ]
  unfold getSinewaves
  rw [e, sinewavesLoop.eq_2]
  simp only [delimiter_eq, partHeader_eq, Flush, hf, if_true, bind, Except.bind]
  rw [sinewavesLoop_trace F enc s hf 59 1 _ (by omega), wavePayloads, e2, List.map_cons,
    roundEvents]
  generalize List.map (fun k => enc (Image.paletted (waveFrame F k))) (List.range' 1 59) = l
  simp [Write, Sleep, HeaderSet, writeCount, Millisecond, boundary]

end MJpeg

namespace MJpeg

/-! ## The wire format -/

theorem digitChar_byte (d : Nat) (h : d < 10) :
    (Nat.digitChar d).toNat.toUInt8 = digitByte d := by
  interval_cases d <;> rfl

theorem toDigitsCore_bytes : ∀ (fuel n : Nat) (ds : List Char), n < fuel →
    (Nat.toDigitsCore 10 fuel n ds).map (fun c => c.toNat.toUInt8)
      = formatNat n ++ ds.map (fun c => c.toNat.toUInt8) := by
  intro fuel
  induction fuel with
  | zero => intro n ds h; omega
  | succ f ih =>
    intro n ds h
    rw [Nat.toDigitsCore, formatNat]
    by_cases h10 : n < 10
    · have : n / 10 = 0 := by omega
      have hm : n % 10 = n := by omega
      simp [this, h10, hm, digitChar_byte n h10]
    · have : n / 10 ≠ 0 := by omega
      simp only [this, if_false, h10]
      rw [ih (n / 10) _ (by omega)]
      simp [digitChar_byte (n % 10) (Nat.mod_lt _ (by decide))]

theorem decimal_eq (n : Nat) : decimal n = formatNat n := by
  simp [decimal, ascii, Nat.repr, Nat.toDigits, List.asString, toDigitsCore_bytes (n + 1) n []]

theorem wirePart_eq (p : Bytes) : wirePart p = delimiter ++ partHeader p ++ p := by
  have e1 : ascii "\r\n--abcd4321\r\n" = delimiter := rfl
  have e2 : ascii "Content-Type: image/jpeg\r\n" ++ ascii "Content-Length: "
      = ascii "Content-Type: image/jpeg\r\nContent-Length: " := by decide
  have e3 : ascii "\r\n" ++ ascii "\r\n" = ascii "\r\n\r\n" := by decide
  unfold wirePart partHeader
  rw [e1, decimal_eq, Itoa_len]
  simp only [List.append_assoc]
  rw [← List.append_assoc (ascii "Content-Type: image/jpeg\r\n"), e2,
    ← List.append_assoc (ascii "\r\n") (ascii "\r\n"), e3]

theorem wireStream_eq (ps : List Bytes) : wireStream ps = delimiter ++ tailStream ps := by
  induction ps with
  | nil => simp [wireStream, tailStream]; rfl
  | cons p ps ih => rw [wireStream, ih, wirePart_eq, tailStream]; simp

theorem body_roundEvents (s : Sink) (ha : ∀ k, s.accepts k = true) (delay : Nat) :
    ∀ (ps : List Bytes) (k : Nat), body (roundEvents s delay k ps) = tailStream ps := by
  intro ps
  induction ps with
  | nil => intro k; rfl
  | cons p ps ih => intro k; simp [roundEvents, body, ha, ih, tailStream]

theorem length_wavePayloads {R : Type} [LinearOrderedField R] [FloorRing R] (F : FloatArith R)
    (enc : Image → Bytes) : (wavePayloads F enc).length = 60 := by
  simp [wavePayloads]

/-- C1. On a response writer that accepts every write (and can flush), the body bytes
that `getAnimation` (3 payloads) and `getSinewaves` (60 payloads) write are exactly the
wire format of their payloads: for each payload in order the block delimiter line,
content type line, content length line with the decimal length, blank line and payload,
and after the last block one closing delimiter line. -/
theorem C1_body_is_wire_stream {R : Type} [LinearOrderedField R] [FloorRing R]
    (F : FloatArith R) (enc : Image → Bytes) (s : Sink)
    (hf : s.flusher = true) (ha : ∀ k, s.accepts k = true) :
    (∃ tr, getAnimation enc s = .ok tr ∧ body tr = wireStream (animationPayloads enc)) ∧
    (∃ tr, getSinewaves F enc s = .ok tr ∧ body tr = wireStream (wavePayloads F enc)) ∧
    (animationPayloads enc).length = 3 ∧ (wavePayloads F enc).length = 60 := by
  refine ⟨⟨_, getAnimation_trace enc s hf, ?_⟩, ⟨_, getSinewaves_trace F enc s hf, ?_⟩, rfl,
    length_wavePayloads F enc⟩
  · simp [body, ha, wireStream_eq, animationPayloads, tailStream]
  · simp [body, ha, wireStream_eq, body_roundEvents s ha]

theorem C1_body_is_wire_stream_witness :
    (goodSink.flusher = true ∧ ∀ k, goodSink.accepts k = true) ∧
    (∃ tr, getAnimation tallyEncoder goodSink = .ok tr ∧
      body tr = wireStream (animationPayloads tallyEncoder)) ∧
    (∃ tr, getSinewaves ratArith tallyEncoder goodSink = .ok tr ∧
      body tr = wireStream (wavePayloads ratArith tallyEncoder)) ∧
    (animationPayloads tallyEncoder).length = 3 ∧ (wavePayloads ratArith tallyEncoder).length = 60 :=
  ⟨⟨rfl, fun _ => rfl⟩, C1_body_is_wire_stream ratArith tallyEncoder goodSink rfl (fun _ => rfl)⟩

end MJpeg

namespace MJpeg

/-! ## Reading the stream back -/

theorem partHeader_cons (p : Bytes) : ∃ b s, partHeader p = b :: s := by
  unfold partHeader
  have : ascii "Content-Type: image/jpeg\r\nContent-Length: "
      = 67 :: (ascii "Content-Type: image/jpeg\r\nContent-Length: ").tail := by decide
  rw [this]
  exact ⟨_, _, rfl⟩

theorem readParts_tailStream : ∀ (ps : List Bytes) (fuel : Nat), ps.length ≤ fuel →
    readParts fuel (tailStream ps) = some ps := by
  intro ps
  induction ps with
  | nil => intro fuel _; cases fuel <;> rfl
  | cons p ps ih =>
    intro fuel h
    obtain ⟨f, rfl⟩ : ∃ f, fuel = f + 1 := ⟨fuel - 1, by simp at h; omega⟩
    obtain ⟨b, s, hb⟩ : ∃ b s, tailStream (p :: ps) = b :: s := by
      obtain ⟨b, s, e⟩ := partHeader_cons p
      exact ⟨b, s ++ (p ++ (delimiter ++ tailStream ps)), by simp [tailStream, e]⟩
    rw [hb, readParts, ← hb, tailStream, readPart_part]
    simp only [Option.some_bind]
    rw [ih f (by simp at h; omega)]
    rfl

theorem length_le_tailStream (ps : List Bytes) : ps.length ≤ (tailStream ps).length := by
  induction ps with
  | nil => simp
  | cons p ps ih =>
    obtain ⟨b, s, e⟩ := partHeader_cons p
    simp [tailStream, e]
    omega

theorem readStream_wireStream (ps : List Bytes) : readStream (wireStream ps) = some ps := by
  rw [readStream, wireStream_eq, dropLeading_append]
  simp only [Option.some_bind]
  exact readParts_tailStream ps _ (length_le_tailStream ps)

end MJpeg

namespace MJpeg

/-! ## Sessions -/

/-- C3. On a response writer that accepts every write (and can flush), `getAnimation`
returns normally and the parts a client reads off its body are exactly three, the
encodings of the 200x200 solid frames red, yellow, green in that order; `getSinewaves`
returns normally and the parts read off its body are exactly 60, part `k` being the
encoding of the wave frame built with frame index `k`. -/
theorem C3_parts_equal_reference {R : Type} [LinearOrderedField R] [FloorRing R]
    (F : FloatArith R) (enc : Image → Bytes) (s : Sink)
    (hf : s.flusher = true) (ha : ∀ k, s.accepts k = true) :
    (∃ tr, getAnimation enc s = .ok tr ∧
      readStream (body tr) = some [enc (.rgba (solidFrame 200 200 red)),
        enc (.rgba (solidFrame 200 200 yellow)), enc (.rgba (solidFrame 200 200 green))]) ∧
    (∃ tr parts, getSinewaves F enc s = .ok tr ∧ readStream (body tr) = some parts ∧
      parts.length = 60 ∧ ∀ k, k < 60 → parts[k]? = some (enc (.paletted (waveFrame F k)))) := by
  refine ⟨⟨_, getAnimation_trace enc s hf, ?_⟩,
    ⟨_, wavePayloads F enc, getSinewaves_trace F enc s hf, ?_, length_wavePayloads F enc, ?_⟩⟩
  · rw [← readStream_wireStream [enc (.rgba (solidFrame 200 200 red)),
      enc (.rgba (solidFrame 200 200 yellow)), enc (.rgba (solidFrame 200 200 green))]]
    simp [body, ha, wireStream_eq, tailStream]
  · rw [← readStream_wireStream (wavePayloads F enc)]
    simp [body, ha, wireStream_eq, body_roundEvents s ha]
  · intro k hk
    simp [wavePayloads, List.getElem?_map, List.getElem?_range hk]

theorem C3_parts_equal_reference_witness :
    (goodSink.flusher = true ∧ ∀ k, goodSink.accepts k = true) ∧
    (∃ tr, getAnimation tallyEncoder goodSink = .ok tr ∧
      readStream (body tr) = some [tallyEncoder (.rgba (solidFrame 200 200 red)),
        tallyEncoder (.rgba (solidFrame 200 200 yellow)),
        tallyEncoder (.rgba (solidFrame 200 200 green))]) ∧
    (∃ tr parts, getSinewaves ratArith tallyEncoder goodSink = .ok tr ∧
      readStream (body tr) = some parts ∧ parts.length = 60 ∧
      ∀ k, k < 60 → parts[k]? = some (tallyEncoder (.paletted (waveFrame ratArith k)))) :=
  ⟨⟨rfl, fun _ => rfl⟩,
    C3_parts_equal_reference ratArith tallyEncoder goodSink rfl (fun _ => rfl)⟩

theorem phases_roundEvents (s : Sink) (delay : Nat) :
    ∀ (ps : List Bytes) (k : Nat), phases (roundEvents s delay k ps) = cycles delay ps.length := by
  intro ps
  induction ps with
  | nil => intro k; rfl
  | cons p ps ih => intro k; simp [roundEvents, phases, ih, cycles]

theorem cycles_eq_flatten (delay : Nat) (n : Nat) :
    cycles delay n = (List.replicate n [Phase.part, Phase.flush, Phase.wait delay]).flatten := by
  induction n with
  | zero => rfl
  | succ n ih => simp [cycles, ih, List.replicate_succ]

theorem delay_animation : 500 * Millisecond = 500000000 := by simp [Millisecond]

theorem delay_sinewaves : 50 * Millisecond = 50000000 := by simp [Millisecond]

theorem phases_lead (a b : String) (d : Bytes) (ok : Bool) (x : Trace) (delay n : Nat)
    (hn : n ≠ 0) (hx : phases x = cycles delay n) :
    phases ([Event.header a b, Event.write d ok] ++ x) = cycles delay n := by
  cases n with
  | zero => exact absurd rfl hn
  | succ n =>
    show phases (Event.header a b :: Event.write d ok :: x) = _
    simp only [phases, hx, cycles]

/-- C9, as the code has it. On a response writer that can flush, the phases of
`getSinewaves` are 60 repetitions of part written, flush, wait of 50 ms, so that every
part, the last included, is followed by a flush and a wait; the phases of `getAnimation`
are two repetitions of part written, flush, wait of 500 ms followed by the third part
alone, after which the handler returns with neither a flush nor a wait. -/
theorem C9_phases_of_sessions {R : Type} [LinearOrderedField R] [FloorRing R]
    (F : FloatArith R) (enc : Image → Bytes) (s : Sink) (hf : s.flusher = true) :
    (∃ tr, getSinewaves F enc s = .ok tr ∧
      phases tr = (List.replicate 60 [Phase.part, Phase.flush, Phase.wait (50 * Millisecond)]).flatten) ∧
    (∃ tr, getAnimation enc s = .ok tr ∧
      phases tr = (List.replicate 2 [Phase.part, Phase.flush, Phase.wait (500 * Millisecond)]).flatten
        ++ [Phase.part]) := by
  refine ⟨⟨_, getSinewaves_trace F enc s hf, ?_⟩, ⟨_, getAnimation_trace enc s hf, ?_⟩⟩
  · rw [delay_sinewaves, ← cycles_eq_flatten]
    have h := phases_roundEvents s 50000000 (wavePayloads F enc) 1
    rw [length_wavePayloads] at h
    exact phases_lead _ _ _ _ _ 50000000 60 (by decide) h
  · rw [delay_animation]
    simp [phases, List.replicate]

theorem C9_phases_of_sessions_witness :
    goodSink.flusher = true ∧
    (∃ tr, getSinewaves ratArith tallyEncoder goodSink = .ok tr ∧
      phases tr = (List.replicate 60 [Phase.part, Phase.flush, Phase.wait (50 * Millisecond)]).flatten) ∧
    (∃ tr, getAnimation tallyEncoder goodSink = .ok tr ∧
      phases tr = (List.replicate 2 [Phase.part, Phase.flush, Phase.wait (500 * Millisecond)]).flatten
        ++ [Phase.part]) :=
  ⟨rfl, C9_phases_of_sessions ratArith tallyEncoder goodSink rfl⟩

/-- C9 as stated fails for `getAnimation`: on a writer that accepts every write and can
flush, its phases are not three repetitions of part written, flush, wait; the third
part is followed by nothing. -/
theorem C9_animation_last_part_not_flushed :
    ∃ tr, getAnimation tallyEncoder goodSink = .ok tr ∧
      phases tr = [Phase.part, Phase.flush, Phase.wait 500000000, Phase.part, Phase.flush,
        Phase.wait 500000000, Phase.part] ∧
      phases tr ≠ (List.replicate 3 [Phase.part, Phase.flush, Phase.wait (500 * Millisecond)]).flatten :=
  ⟨_, getAnimation_trace tallyEncoder goodSink rfl, by simp [phases], by
    rw [delay_animation]; simp [phases, List.replicate]⟩

end MJpeg

namespace MJpeg

/-! ## A response writer that cannot flush -/

/-- C5, what the code does. On a response writer that accepts every write and does
not implement `http.Flusher`, both handlers log the fact, write the content type, the
lead-in delimiter and their first part, and then panic at the first `f.Flush()`, the
call of a method on the nil interface: the handler fails, and the second and later
parts are never written. -/
theorem C5_no_flusher_panics {R : Type} [LinearOrderedField R] [FloorRing R]
    (F : FloatArith R) (enc : Image → Bytes) :
    getAnimation enc plainSink = .error
      [ .log "HTTP buffer flushing is not implemented",
        .header "Content-Type" "multipart/x-mixed-replace; boundary=abcd4321",
        .write delimiter true,
        .write (partHeader (enc (.rgba (solidFrame 200 200 red)))) true,
        .write (enc (.rgba (solidFrame 200 200 red))) true,
        .write delimiter true ] ∧
    getSinewaves F enc plainSink = .error
      [ .log "HTTP buffer flushing is not implemented",
        .header "Content-Type" "multipart/x-mixed-replace; boundary=abcd4321",
        .write delimiter true,
        .write (partHeader (enc (.paletted (waveFrame F 0)))) true,
        .write (enc (.paletted (waveFrame F 0))) true,
        .write delimiter true ] := by
  constructor
  · simp only [getAnimation, delimiter_eq, partHeader_eq, getJPEG_sample, orPanic]
    simp [Flush, plainSink, Write, Println, HeaderSet, bind, Except.bind, writeCount, boundary]
  · have e : nframes = 59 + 1 := rfl
    unfold getSinewaves
    rw [e, sinewavesLoop.eq_2]
    simp only [delimiter_eq, partHeader_eq]
    simp [Flush, plainSink, Write, Println, HeaderSet, bind, Except.bind, writeCount, boundary]

end MJpeg

namespace MJpeg

/-! ## A response writer that rejects writes -/

theorem results_roundEvents (s : Sink) (delay : Nat) :
    ∀ (ps : List Bytes) (k : Nat),
      results (roundEvents s delay k ps) = (List.range' k (3 * ps.length)).map s.accepts := by
  intro ps
  induction ps with
  | nil => intro k; rfl
  | cons p ps ih =>
    intro k
    have e : 3 * (p :: ps).length = 3 * ps.length + 1 + 1 + 1 := by simp; omega
    rw [e]
    simp only [roundEvents, List.range'_succ, List.map_cons, List.cons_append, List.nil_append,
      results, ih]
    simp [Nat.add_assoc, ih]

theorem attempts_roundEvents (s : Sink) (delay : Nat) :
    ∀ (ps : List Bytes) (k : Nat), attempts (roundEvents s delay k ps) = partWrites ps := by
  intro ps
  induction ps with
  | nil => intro k; rfl
  | cons p ps ih => intro k; simp [roundEvents, attempts, ih, partWrites]

theorem partsOk_dead (j : Nat) : ∀ (n a : Nat),
    partsOk ((List.range' a (3 * n + 1)).map fun k => decide (k < j)) = min n ((j - a - 1) / 3) := by
  intro n
  induction n with
  | zero => intro a; simp [partsOk]
  | succ n ih =>
    intro a
    have e : 3 * (n + 1) + 1 = (3 * n + 1) + 1 + 1 + 1 := by omega
    rw [e]
    simp only [List.range'_succ a, List.range'_succ (a + 1), List.range'_succ (a + 1 + 1),
      List.map_cons, partsOk]
    rw [ih (a + 1 + 1 + 1)]
    rw [List.range'_succ]
    simp only [List.map_cons]
    by_cases h : a + 3 < j
    · have h0 : a < j := by omega
      have h1 : a + 1 < j := by omega
      have h2 : a + 1 + 1 < j := by omega
      have h3 : a + 1 + 1 + 1 < j := by omega
      simp only [h0, h1, h2, h3, decide_True, Bool.and_self, if_true]
      omega
    · have h3 : ¬ a + 1 + 1 + 1 < j := by omega
      simp only [h3, decide_False, Bool.and_false, Bool.false_eq_true, if_false]
      omega

end MJpeg

namespace MJpeg

theorem results_lead (a b : String) (d : Bytes) (ok : Bool) (x : Trace) :
    results ([Event.header a b, Event.write d ok] ++ x) = ok :: results x := rfl

theorem attempts_lead (a b : String) (d : Bytes) (ok : Bool) (x : Trace) :
    attempts ([Event.header a b, Event.write d ok] ++ x) = d :: attempts x := rfl

theorem results_getSinewaves {R : Type} [LinearOrderedField R] [FloorRing R]
    (F : FloatArith R) (enc : Image → Bytes) (s : Sink) :
    results ([Event.header "Content-Type" "multipart/x-mixed-replace; boundary=abcd4321",
      Event.write delimiter (s.accepts 0)] ++ roundEvents s 50000000 1 (wavePayloads F enc))
      = (List.range' 0 (3 * 60 + 1)).map s.accepts := by
  rw [results_lead, results_roundEvents, length_wavePayloads, List.range'_succ 0 (3 * 60),
    List.map_cons]

theorem results_getAnimation (enc : Image → Bytes) (s : Sink) :
    results [ Event.header "Content-Type" "multipart/x-mixed-replace; boundary=abcd4321",
        .write delimiter (s.accepts 0),
        .write (partHeader (enc (.rgba (solidFrame 200 200 red)))) (s.accepts 1),
        .write (enc (.rgba (solidFrame 200 200 red))) (s.accepts 2),
        .write delimiter (s.accepts 3), .flush, .sleep 500000000,
        .write (partHeader (enc (.rgba (solidFrame 200 200 yellow)))) (s.accepts 4),
        .write (enc (.rgba (solidFrame 200 200 yellow))) (s.accepts 5),
        .write delimiter (s.accepts 6), .flush, .sleep 500000000,
        .write (partHeader (enc (.rgba (solidFrame 200 200 green)))) (s.accepts 7),
        .write (enc (.rgba (solidFrame 200 200 green))) (s.accepts 8),
        .write delimiter (s.accepts 9) ]
      = (List.range' 0 (3 * 3 + 1)).map s.accepts := by
  simp [results, List.range'_succ]

/-- C4 as stated fails: on a writer that accepts the lead-in and the first part and
rejects the first write of part 2 and every later write, `getAnimation` does not stop
at the failed write. It attempts all ten of its writes, five of them after the failed
one, and returns normally. -/
theorem C4_writes_continue_after_failure :
    ∃ tr, getAnimation tallyEncoder (deadSink 4) = .ok tr ∧
      results tr = [true, true, true, true, false, false, false, false, false, false] ∧
      (attempts tr).length = 10 :=
  ⟨_, getAnimation_trace tallyEncoder (deadSink 4) rfl, by simp [results, deadSink],
    by simp [attempts]⟩

/-- C4, as the code has it. On a response writer that can flush, the handlers discard
the result of every write: whichever writes the writer rejects, `getAnimation` attempts
the same 10 writes and `getSinewaves` the same 181 writes (the lead-in, then header,
payload and delimiter of every part), in order, and returns normally, so there is no
aborted state. When the writer rejects write number `j` and every later one, the
number of parts written successfully is `(j - 1) / 3` (capped at the number of parts),
which is `k - 1` for a failure inside part `k`. -/
theorem C4_write_errors_are_ignored {R : Type} [LinearOrderedField R] [FloorRing R]
    (F : FloatArith R) (enc : Image → Bytes) (s : Sink) (j : Nat) (hf : s.flusher = true) :
    (∃ tr, getAnimation enc s = .ok tr ∧
      attempts tr = delimiter :: partWrites (animationPayloads enc) ∧
      results tr = (List.range' 0 (3 * 3 + 1)).map s.accepts) ∧
    (∃ tr, getSinewaves F enc s = .ok tr ∧
      attempts tr = delimiter :: partWrites (wavePayloads F enc) ∧
      results tr = (List.range' 0 (3 * 60 + 1)).map s.accepts) ∧
    (∃ tr, getAnimation enc (deadSink j) = .ok tr ∧ successfulParts tr = min 3 ((j - 1) / 3)) ∧
    (∃ tr, getSinewaves F enc (deadSink j) = .ok tr ∧
      successfulParts tr = min 60 ((j - 1) / 3)) := by
  refine ⟨⟨_, getAnimation_trace enc s hf, ?_, results_getAnimation enc s⟩,
    ⟨_, getSinewaves_trace F enc s hf, ?_, results_getSinewaves F enc s⟩,
    ⟨_, getAnimation_trace enc (deadSink j) rfl, ?_⟩,
    ⟨_, getSinewaves_trace F enc (deadSink j) rfl, ?_⟩⟩
  · simp [attempts, partWrites, animationPayloads]
  · rw [attempts_lead, attempts_roundEvents]
  · rw [successfulParts, results_getAnimation]
    exact partsOk_dead j 3 0
  · rw [successfulParts, results_getSinewaves]
    exact partsOk_dead j 60 0

theorem C4_write_errors_are_ignored_witness :
    (deadSink 5).flusher = true ∧
    (∃ tr, getAnimation tallyEncoder (deadSink 5) = .ok tr ∧
      attempts tr = delimiter :: partWrites (animationPayloads tallyEncoder) ∧
      results tr = (List.range' 0 (3 * 3 + 1)).map (deadSink 5).accepts) ∧
    (∃ tr, getSinewaves ratArith tallyEncoder (deadSink 5) = .ok tr ∧
      attempts tr = delimiter :: partWrites (wavePayloads ratArith tallyEncoder) ∧
      results tr = (List.range' 0 (3 * 60 + 1)).map (deadSink 5).accepts) ∧
    (∃ tr, getAnimation tallyEncoder (deadSink 5) = .ok tr ∧
      successfulParts tr = min 3 ((5 - 1) / 3)) ∧
    (∃ tr, getSinewaves ratArith tallyEncoder (deadSink 5) = .ok tr ∧
      successfulParts tr = min 60 ((5 - 1) / 3)) :=
  ⟨rfl, C4_write_errors_are_ignored ratArith tallyEncoder (deadSink 5) 5 rfl⟩

end MJpeg

namespace MJpeg

/-! ## The wave frame: the row of each column -/

theorem rnd_natCast {R : Type} [LinearOrderedField R] (F : FloatArith R) (hF : F.Sound) (k : Nat) (h : k ≤ 2 ^ 53) :
    F.rnd (k : R) = (k : R) := by
  have := hF.rnd_int (k : Int)
    (by have := Int.natCast_nonneg k; linarith [show (0 : Int) ≤ 2 ^ 53 by positivity])
    (by exact_mod_cast h)
  simpa using this

theorem rnd_neg_hundred {R : Type} [LinearOrderedField R] (F : FloatArith R) (hF : F.Sound) : F.rnd (-100 : R) = -100 := by
  have := hF.rnd_int (-100) (by norm_num) (by norm_num)
  simpa using this

theorem waveY_bounds {R : Type} [LinearOrderedField R] (F : FloatArith R) (hF : F.Sound) (t n : Nat) :
    (50 : R) ≤ waveY F t n ∧ waveY F t n ≤ 250 := by
  have ha : F.rnd ((height : R) / 3) = 100 := by
    have e : ((height : Nat) : R) / 3 = ((100 : Nat) : R) := by norm_num [height]
    rw [e, rnd_natCast F hF 100 (by norm_num)]; norm_num
  have hd : F.rnd ((height : R) / 2) = 150 := by
    have e : ((height : Nat) : R) / 2 = ((150 : Nat) : R) := by norm_num [height]
    rw [e, rnd_natCast F hF 150 (by norm_num)]; norm_num
  have h50 : F.rnd (50 : R) = 50 := by
    have := rnd_natCast F hF 50 (by norm_num); simpa using this
  have h250 : F.rnd (250 : R) = 250 := by
    have := rnd_natCast F hF 250 (by norm_num); simpa using this
  have h100 : F.rnd (100 : R) = 100 := by
    have := rnd_natCast F hF 100 (by norm_num); simpa using this
  simp only [waveY, ha, hd]
  generalize F.rnd (F.rnd (waveX F n * F.rnd (1 / 100)) + F.rnd (F.rnd (t : R) / 6)) = arg
  have hl := hF.sin_lower arg
  have hu := hF.sin_upper arg
  have h1 : (-100 : R) ≤ F.rnd (100 * F.sin arg) := by
    have := hF.rnd_mono (-100) (100 * F.sin arg) (by linarith)
    rwa [rnd_neg_hundred F hF] at this
  have h2 : F.rnd (100 * F.sin arg) ≤ 100 := by
    have := hF.rnd_mono (100 * F.sin arg) 100 (by linarith)
    rwa [h100] at this
  constructor
  · have := hF.rnd_mono 50 (F.rnd (100 * F.sin arg) + 150) (by linarith)
    rwa [h50] at this
  · have := hF.rnd_mono (F.rnd (100 * F.sin arg) + 150) 250 (by linarith)
    rwa [h250] at this

theorem toInt_waveY {R : Type} [LinearOrderedField R] [FloorRing R] (F : FloatArith R) (hF : F.Sound) (t n : Nat) :
    toInt (waveY F t n) = ⌊waveY F t n⌋ ∧ 50 ≤ ⌊waveY F t n⌋ ∧ ⌊waveY F t n⌋ ≤ 250 := by
  obtain ⟨h1, h2⟩ := waveY_bounds F hF t n
  refine ⟨by rw [toInt, if_pos (by linarith)], ?_, ?_⟩
  · exact Int.le_floor.mpr (by exact_mod_cast h1)
  · have := Int.floor_le (waveY F t n)
    have h3 : ((⌊waveY F t n⌋ : Int) : R) ≤ ((250 : Int) : R) := by push_cast; linarith
    exact_mod_cast h3

theorem toInt_waveX {R : Type} [LinearOrderedField R] [FloorRing R] (F : FloatArith R) (hF : F.Sound) (n : Nat) (h : n ≤ 2 ^ 53) :
    toInt (waveX F n) = (n : Int) := by
  rw [waveX, rnd_natCast F hF n h, toInt, if_pos (by positivity)]
  exact Int.floor_natCast n

end MJpeg

namespace MJpeg

/-! ## The wave frame: the pixels -/

theorem pix_step (l : List UInt8) (m r : Nat) (rowf : Nat → Int) (hm : m < 400) (hr : r < 300)
    (hrow : rowf m = (r : Int)) (hlen : l.length = 120000)
    (h5 : ∀ i, i < 120000 → l[i]? = some
      (if i % 400 < m ∧ ((i / 400 : Nat) : Int) = rowf (i % 400) then 1 else 0))
    (h6 : l.count 1 = m) :
    (l.set (r * 400 + m) 1).length = 120000 ∧
    (∀ i, i < 120000 → (l.set (r * 400 + m) 1)[i]? = some
      (if i % 400 < m + 1 ∧ ((i / 400 : Nat) : Int) = rowf (i % 400) then 1 else 0)) ∧
    (l.set (r * 400 + m) 1).count 1 = m + 1 := by
  have ho : r * 400 + m < 120000 := by omega
  have hmod : (r * 400 + m) % 400 = m := by omega
  have hdiv : (r * 400 + m) / 400 = r := by omega
  refine ⟨by simp [hlen], ?_, ?_⟩
  · intro i hi
    rw [List.getElem?_set]
    by_cases e : r * 400 + m = i
    · subst e
      simp [hlen, ho, hmod, hdiv, hrow]
    · rw [if_neg e, h5 i hi]
      congr 1
      by_cases c : i % 400 < m
      · have c' : i % 400 < m + 1 := by omega
        simp only [c, c', true_and]
      · by_cases c2 : i % 400 = m
        · have hne : i / 400 ≠ r := by
            intro h
            apply e
            have := Nat.div_add_mod i 400
            omega
          have hne' : ((i / 400 : Nat) : Int) ≠ rowf (i % 400) := by
            rw [c2, hrow]; exact_mod_cast hne
          rw [if_neg (fun h => c h.1), if_neg (fun h => hne' h.2)]
        · have c' : ¬ i % 400 < m + 1 := by omega
          rw [if_neg (fun h => c h.1), if_neg (fun h => c' h.1)]
  · have hz : l[r * 400 + m]? = some 0 := by
      rw [h5 _ ho, hmod]; simp
    have hlt : r * 400 + m < l.length := by omega
    have hz' : l[r * 400 + m] = 0 := by
      rw [List.getElem?_eq_getElem hlt] at hz
      exact Option.some.inj hz
    rw [List.count_set _ _ _ _ hlt, hz', h6]
    simp

end MJpeg

namespace MJpeg

theorem newPaletted_wave :
    (image.NewPaletted (image.Rect 0 0 width height) palette).Rect = ⟨⟨0, 0⟩, ⟨400, 300⟩⟩ ∧
    (image.NewPaletted (image.Rect 0 0 width height) palette).Stride = 400 ∧
    (image.NewPaletted (image.Rect 0 0 width height) palette).Palette = palette ∧
    (image.NewPaletted (image.Rect 0 0 width height) palette).Pix = List.replicate 120000 0 := by
  have e : image.Rect 0 0 (width : Int) (height : Int) = ⟨⟨0, 0⟩, ⟨400, 300⟩⟩ := by
    simp [image.Rect, width, height]
  rw [e]
  refine ⟨rfl, ?_, rfl, ?_⟩
  · simp [image.NewPaletted, image.Rectangle.Dx]
  · have h : (image.Rectangle.Dx ⟨⟨0, 0⟩, ⟨400, 300⟩⟩ * image.Rectangle.Dy ⟨⟨0, 0⟩, ⟨400, 300⟩⟩).toNat
        = 120000 := by
      simp [image.Rectangle.Dx, image.Rectangle.Dy]
    show List.replicate _ _ = _
    rw [h]

theorem waveFold_inv {R : Type} [LinearOrderedField R] [FloorRing R] (F : FloatArith R)
    (hF : F.Sound) (t : Nat) : ∀ m, m ≤ 400 →
    ((List.range m).foldl
      (fun img n => img.SetColorIndex (toInt (waveX F n)) (toInt (waveY F t n)) blueIndex)
      (image.NewPaletted (image.Rect 0 0 width height) palette)).Rect = ⟨⟨0, 0⟩, ⟨400, 300⟩⟩ ∧
    ((List.range m).foldl
      (fun img n => img.SetColorIndex (toInt (waveX F n)) (toInt (waveY F t n)) blueIndex)
      (image.NewPaletted (image.Rect 0 0 width height) palette)).Stride = 400 ∧
    ((List.range m).foldl
      (fun img n => img.SetColorIndex (toInt (waveX F n)) (toInt (waveY F t n)) blueIndex)
      (image.NewPaletted (image.Rect 0 0 width height) palette)).Palette = palette ∧
    ((List.range m).foldl
      (fun img n => img.SetColorIndex (toInt (waveX F n)) (toInt (waveY F t n)) blueIndex)
      (image.NewPaletted (image.Rect 0 0 width height) palette)).Pix.length = 120000 ∧
    (∀ i, i < 120000 → ((List.range m).foldl
      (fun img n => img.SetColorIndex (toInt (waveX F n)) (toInt (waveY F t n)) blueIndex)
      (image.NewPaletted (image.Rect 0 0 width height) palette)).Pix[i]? = some
        (if i % 400 < m ∧ ((i / 400 : Nat) : Int) = toInt (waveY F t (i % 400)) then 1 else 0)) ∧
    ((List.range m).foldl
      (fun img n => img.SetColorIndex (toInt (waveX F n)) (toInt (waveY F t n)) blueIndex)
      (image.NewPaletted (image.Rect 0 0 width height) palette)).Pix.count 1 = m := by
  intro m
  induction m with
  | zero =>
    intro _
    obtain ⟨h1, h2, h3, h4⟩ := newPaletted_wave
    simp only [List.range_zero, List.foldl_nil]
    refine ⟨h1, h2, h3, by rw [h4, List.length_replicate], ?_, ?_⟩
    · intro i hi
      rw [h4, List.getElem?_replicate, if_pos hi, if_neg (fun h => Nat.not_lt_zero _ h.1)]
    · rw [h4]
      apply List.count_eq_zero_of_not_mem
      intro h
      exact absurd (List.eq_of_mem_replicate h) (by decide)
  | succ m ih =>
    intro hm
    obtain ⟨h1, h2, h3, h4, h5, h6⟩ := ih (by omega)
    rw [List.range_succ, List.foldl_append]
    simp only [List.foldl_cons, List.foldl_nil]
    generalize (List.range m).foldl
      (fun img n => img.SetColorIndex (toInt (waveX F n)) (toInt (waveY F t n)) blueIndex)
      (image.NewPaletted (image.Rect 0 0 width height) palette) = img at h1 h2 h3 h4 h5 h6 ⊢
    obtain ⟨hy, hlo, hhi⟩ := toInt_waveY F hF t m
    have hx := toInt_waveX F hF m (by norm_num; omega)
    obtain ⟨r, hr⟩ : ∃ r : Nat, toInt (waveY F t m) = (r : Int) :=
      ⟨(toInt (waveY F t m)).toNat, by rw [Int.toNat_of_nonneg (by rw [hy]; omega)]⟩
    have hr300 : r < 300 := by rw [hy] at hr; omega
    have hin : image.Point.In ⟨(m : Int), (r : Int)⟩ ⟨⟨0, 0⟩, ⟨400, 300⟩⟩ = true := by
      simp [image.Point.In]; omega
    have hoff : (((r : Int) - 0) * 400 + ((m : Int) - 0) * 1).toNat = r * 400 + m := by
      have : ((r : Int) - 0) * 400 + ((m : Int) - 0) * 1 = ((r * 400 + m : Nat) : Int) := by
        push_cast; ring
      rw [this, Int.toNat_natCast]
    obtain ⟨g4, g5, g6⟩ := pix_step img.Pix m r (fun n => toInt (waveY F t n)) (by omega) hr300 hr
      h4 h5 h6
    simp only [image.Paletted.SetColorIndex, hx, hr, h1, hin, if_true, image.Paletted.PixOffset,
      h2, hoff]
    exact ⟨trivial, trivial, h3, g4, g5, g6⟩

end MJpeg

namespace MJpeg

theorem waveFrame_shape {R : Type} [LinearOrderedField R] [FloorRing R] (F : FloatArith R)
    (hF : F.Sound) (t : Nat) :
    (waveFrame F t).Rect = ⟨⟨0, 0⟩, ⟨400, 300⟩⟩ ∧ (waveFrame F t).Stride = 400 ∧
    (waveFrame F t).Palette = palette ∧ (waveFrame F t).Pix.length = 120000 ∧
    (∀ i, i < 120000 → (waveFrame F t).Pix[i]? = some
      (if ((i / 400 : Nat) : Int) = toInt (waveY F t (i % 400)) then 1 else 0)) ∧
    (waveFrame F t).Pix.count 1 = 400 := by
  obtain ⟨h1, h2, h3, h4, h5, h6⟩ := waveFold_inv F hF t 400 (le_refl _)
  refine ⟨h1, h2, h3, h4, ?_, h6⟩
  intro i hi
  have := h5 i hi
  have hlt : i % 400 < 400 := Nat.mod_lt _ (by norm_num)
  simp only [hlt, true_and] at this
  exact this

theorem waveFrame_pixel {R : Type} [LinearOrderedField R] [FloorRing R] (F : FloatArith R)
    (hF : F.Sound) (t x r : Nat) (hx : x < 400) (hr : r < 300) :
    (waveFrame F t).ColorIndexAt x r
      = if (r : Int) = ⌊waveY F t x⌋ then blueIndex else whiteIndex := by
  obtain ⟨h1, h2, _, _, h5, _⟩ := waveFrame_shape F hF t
  have hin : image.Point.In ⟨(x : Int), (r : Int)⟩ ⟨⟨0, 0⟩, ⟨400, 300⟩⟩ = true := by
    simp [image.Point.In]; omega
  have hoff : (((r : Int) - 0) * 400 + ((x : Int) - 0) * 1).toNat = r * 400 + x := by
    have : ((r : Int) - 0) * 400 + ((x : Int) - 0) * 1 = ((r * 400 + x : Nat) : Int) := by
      push_cast; ring
    rw [this, Int.toNat_natCast]
  have hmod : (r * 400 + x) % 400 = x := by omega
  have hdiv : (r * 400 + x) / 400 = r := by omega
  have hy := (toInt_waveY F hF t x).1
  rw [image.Paletted.ColorIndexAt, h1, hin, if_pos rfl, image.Paletted.PixOffset, h1, h2, hoff,
    List.getD_eq_getElem?_getD, h5 _ (by omega), hmod, hdiv, hy]
  rfl

end MJpeg

namespace MJpeg

theorem waveY_formula {R : Type} [LinearOrderedField R] (F : FloatArith R) (hF : F.Sound)
    (t x : Nat) (hx : x < 400) :
    waveY F t x = F.rnd (F.rnd (100 * F.sin
      (F.rnd (F.rnd ((x : R) * F.rnd (1 / 100)) + F.rnd (F.rnd (t : R) / 6)))) + 150) := by
  have ha : F.rnd ((height : R) / 3) = 100 := by
    have e : ((height : Nat) : R) / 3 = ((100 : Nat) : R) := by norm_num [height]
    rw [e, rnd_natCast F hF 100 (by norm_num)]; norm_num
  have hd : F.rnd ((height : R) / 2) = 150 := by
    have e : ((height : Nat) : R) / 2 = ((150 : Nat) : R) := by norm_num [height]
    rw [e, rnd_natCast F hF 150 (by norm_num)]; norm_num
  simp only [waveY, waveX, ha, hd, rnd_natCast F hF x (by norm_num; omega)]

theorem ratArith_sound : ratArith.Sound where
  rnd_mono := fun _ _ h => h
  rnd_int := fun _ _ _ => rfl
  sin_lower := fun _ => le_max_left _ _
  sin_upper := fun _ => max_le (by norm_num) (min_le_left _ _)

/-- C7. For every frame index `t` and every column `x` below 400, the row index that
`getSinewaves` passes to the pixel store, `int(y)` with `y = a*math.Sin(x*b+c) + d`,
lies in `[50, 250]`; the point `(int(x), int(y))` is inside the 400x300 raster and its
offset is inside the pixel buffer, so `SetColorIndex` never takes its out-of-range
branch and never indexes outside `Pix`. -/
theorem C7_row_inside_raster {R : Type} [LinearOrderedField R] [FloorRing R]
    (F : FloatArith R) (t x : Nat) (hF : F.Sound) (hx : x < 400) :
    50 ≤ toInt (waveY F t x) ∧ toInt (waveY F t x) ≤ 250 ∧
    image.Point.In ⟨toInt (waveX F x), toInt (waveY F t x)⟩
      (image.Rect 0 0 width height) = true ∧
    0 ≤ (waveFrame F t).PixOffset (toInt (waveX F x)) (toInt (waveY F t x)) ∧
    ((waveFrame F t).PixOffset (toInt (waveX F x)) (toInt (waveY F t x))).toNat
      < (waveFrame F t).Pix.length := by
  obtain ⟨hy, hlo, hhi⟩ := toInt_waveY F hF t x
  have hx' := toInt_waveX F hF x (by norm_num; omega)
  obtain ⟨h1, h2, _, h4, _, _⟩ := waveFrame_shape F hF t
  have e : image.Rect 0 0 (width : Int) (height : Int) = ⟨⟨0, 0⟩, ⟨400, 300⟩⟩ := by
    simp [image.Rect, width, height]
  rw [hy, hx', e, image.Paletted.PixOffset, h1, h2, h4]
  refine ⟨hlo, hhi, ?_, ?_, ?_⟩
  · simp [image.Point.In]; omega
  · simp only []; omega
  · simp only []; omega

theorem C7_row_inside_raster_witness :
    (ratArith.Sound ∧ 7 < 400) ∧
    50 ≤ toInt (waveY ratArith 3 7) ∧ toInt (waveY ratArith 3 7) ≤ 250 ∧
    image.Point.In ⟨toInt (waveX ratArith 7), toInt (waveY ratArith 3 7)⟩
      (image.Rect 0 0 width height) = true ∧
    0 ≤ (waveFrame ratArith 3).PixOffset (toInt (waveX ratArith 7)) (toInt (waveY ratArith 3 7)) ∧
    ((waveFrame ratArith 3).PixOffset (toInt (waveX ratArith 7))
      (toInt (waveY ratArith 3 7))).toNat < (waveFrame ratArith 3).Pix.length :=
  ⟨⟨ratArith_sound, by decide⟩, C7_row_inside_raster ratArith 3 7 ratArith_sound (by decide)⟩

/-- C10. For every frame index `t`, the raster `getSinewaves` builds for frame `t` is
a 400x300 paletted image over the palette white, blue in which each column `x` has
exactly one pixel of the foreground index 1, at row `floor(y)` for
`y = 100*sin(0.01*x + t/6) + 150` as the inner loop computes it (`int(y)` truncates and
`y` is at least 50), and every other pixel has the background index 0; the frame has
exactly 400 foreground pixels. -/
theorem C10_one_foreground_pixel_per_column {R : Type} [LinearOrderedField R] [FloorRing R]
    (F : FloatArith R) (t : Nat) (hF : F.Sound) :
    (waveFrame F t).Rect = image.Rect 0 0 400 300 ∧
    (waveFrame F t).Pix.length = 400 * 300 ∧
    (waveFrame F t).Palette = [color.White, .rgba blue] ∧
    (∀ x, x < 400 →
      waveY F t x = F.rnd (F.rnd (100 * F.sin
        (F.rnd (F.rnd ((x : R) * F.rnd (1 / 100)) + F.rnd (F.rnd (t : R) / 6)))) + 150) ∧
      toInt (waveY F t x) = ⌊waveY F t x⌋ ∧
      0 ≤ ⌊waveY F t x⌋ ∧ ⌊waveY F t x⌋ < 300) ∧
    (∀ x r : Nat, x < 400 → r < 300 →
      (waveFrame F t).ColorIndexAt x r
        = if (r : Int) = ⌊waveY F t x⌋ then blueIndex else whiteIndex) ∧
    (waveFrame F t).Pix.count blueIndex = 400 := by
  obtain ⟨h1, _, h3, h4, _, h6⟩ := waveFrame_shape F hF t
  have e : image.Rect 0 0 400 300 = ⟨⟨0, 0⟩, ⟨400, 300⟩⟩ := by simp [image.Rect]
  refine ⟨by rw [h1, e], by rw [h4], h3, ?_, ?_, h6⟩
  · intro x hx
    obtain ⟨hy, hlo, hhi⟩ := toInt_waveY F hF t x
    exact ⟨waveY_formula F hF t x hx, hy, by omega, by omega⟩
  · intro x r hx hr
    exact waveFrame_pixel F hF t x r hx hr

theorem C10_one_foreground_pixel_per_column_witness :
    ratArith.Sound ∧
    (waveFrame ratArith 5).Rect = image.Rect 0 0 400 300 ∧
    (waveFrame ratArith 5).Pix.length = 400 * 300 ∧
    (waveFrame ratArith 5).Palette = [color.White, .rgba blue] ∧
    (∀ x, x < 400 →
      waveY ratArith 5 x = ratArith.rnd (ratArith.rnd (100 * ratArith.sin
        (ratArith.rnd (ratArith.rnd ((x : ℚ) * ratArith.rnd (1 / 100))
          + ratArith.rnd (ratArith.rnd ((5 : Nat) : ℚ) / 6)))) + 150) ∧
      toInt (waveY ratArith 5 x) = ⌊waveY ratArith 5 x⌋ ∧
      0 ≤ ⌊waveY ratArith 5 x⌋ ∧ ⌊waveY ratArith 5 x⌋ < 300) ∧
    (∀ x r : Nat, x < 400 → r < 300 →
      (waveFrame ratArith 5).ColorIndexAt x r
        = if (r : Int) = ⌊waveY ratArith 5 x⌋ then blueIndex else whiteIndex) ∧
    (waveFrame ratArith 5).Pix.count blueIndex = 400 :=
  ⟨ratArith_sound, C10_one_foreground_pixel_per_column ratArith 5 ratArith_sound⟩

end MJpeg

namespace MJpeg

/-! ## Truncation against rounding -/

theorem realArith_sound : (⟨fun r => r, Real.sin⟩ : FloatArith ℝ).Sound where
  rnd_mono := fun _ _ h => h
  rnd_int := fun _ _ _ => rfl
  sin_lower := Real.neg_one_le_sin
  sin_upper := Real.sin_le_one

theorem waveY_real_zero_one :
    waveY (⟨fun r => r, Real.sin⟩ : FloatArith ℝ) 0 1 = 100 * Real.sin (1 / 100) + 150 := by
  simp only [waveY, waveX, height]
  norm_num

theorem sin_hundredth : (1 : ℝ) / 200 ≤ Real.sin (1 / 100) ∧ Real.sin (1 / 100) < 1 / 100 := by
  constructor
  · have h := Real.sin_gt_sub_cube (x := 1 / 100) (by norm_num) (by norm_num)
    have : (1 : ℝ) / 200 ≤ 1 / 100 - (1 / 100) ^ 3 / 4 := by norm_num
    linarith
  · exact Real.sin_lt (by norm_num)

theorem floor_waveY_real_zero_one :
    ⌊waveY (⟨fun r => r, Real.sin⟩ : FloatArith ℝ) 0 1⌋ = 150 := by
  obtain ⟨h1, h2⟩ := sin_hundredth
  rw [waveY_real_zero_one, Int.floor_eq_iff]
  constructor
  · push_cast; linarith
  · push_cast; linarith

/-- C6 as stated fails: in frame 0, column 1, `y` is `100 * sin(0.01) + 150`, a little
below 151. The row the code uses is `int(y) = 150`, while the nearest integer, also
after clamping into `[0, 300)`, is 151: the pixel of the frame at row 150 is the
foreground one and the pixel at row 151 is background. The same row 150 comes out of
the rational instance of the arithmetic. -/
theorem C6_row_truncated_not_rounded :
    toInt (waveY (⟨fun r => r, Real.sin⟩ : FloatArith ℝ) 0 1) = 150 ∧
    max 0 (min 299 (round ((100 : ℝ) * Real.sin (1 * (1 / 100) + 0 / 6) + 150))) = 151 ∧
    (waveFrame (⟨fun r => r, Real.sin⟩ : FloatArith ℝ) 0).ColorIndexAt 1 150 = blueIndex ∧
    (waveFrame (⟨fun r => r, Real.sin⟩ : FloatArith ℝ) 0).ColorIndexAt 1 151 = whiteIndex ∧
    toInt (waveY ratArith 0 1) = 150 := by
  obtain ⟨h1, h2⟩ := sin_hundredth
  have hfl := floor_waveY_real_zero_one
  refine ⟨?_, ?_, ?_, ?_, ?_⟩
  · rw [(toInt_waveY _ realArith_sound 0 1).1, hfl]
  · have : round ((100 : ℝ) * Real.sin (1 * (1 / 100) + 0 / 6) + 150) = 151 := by
      rw [round_eq, Int.floor_eq_iff]
      have e : (1 : ℝ) * (1 / 100) + 0 / 6 = 1 / 100 := by norm_num
      rw [e]
      constructor
      · push_cast; linarith
      · push_cast; linarith
    rw [this]; rfl
  · have := waveFrame_pixel _ realArith_sound 0 1 150 (by norm_num) (by norm_num)
    rw [hfl] at this
    simpa using this
  · have := waveFrame_pixel _ realArith_sound 0 1 151 (by norm_num) (by norm_num)
    rw [hfl] at this
    simpa using this
  · rw [(toInt_waveY _ ratArith_sound 0 1).1, Int.floor_eq_iff]
    simp only [waveY, waveX, height, ratArith]
    norm_num

end MJpeg

namespace MJpeg

/-- C6, as the code has it. For every frame index `t` and every column `x` below 400,
with `y = a*sin(x*b + t/6) + d` as the loop computes it (`a = 100`, `b = 0.01`,
`d = 150`), the foreground pixel of column `x` of frame `t` is at row `int(y)`, which
is `floor(y)`, the fraction being cut off and not rounded; that row lies in
`[50, 250]`, so clamping into `[0, 300)` leaves it as it is. -/
theorem C6_foreground_row_is_floor {R : Type} [LinearOrderedField R] [FloorRing R]
    (F : FloatArith R) (t x : Nat) (hF : F.Sound) (hx : x < 400) :
    waveY F t x = F.rnd (F.rnd (100 * F.sin
      (F.rnd (F.rnd ((x : R) * F.rnd (1 / 100)) + F.rnd (F.rnd (t : R) / 6)))) + 150) ∧
    toInt (waveY F t x) = ⌊waveY F t x⌋ ∧
    (50 ≤ ⌊waveY F t x⌋ ∧ ⌊waveY F t x⌋ ≤ 250) ∧
    max 0 (min 299 ⌊waveY F t x⌋) = ⌊waveY F t x⌋ ∧
    (∀ r : Nat, r < 300 →
      ((waveFrame F t).ColorIndexAt x r = blueIndex ↔ (r : Int) = ⌊waveY F t x⌋)) := by
  obtain ⟨hy, hlo, hhi⟩ := toInt_waveY F hF t x
  refine ⟨waveY_formula F hF t x hx, hy, ⟨hlo, hhi⟩, by omega, ?_⟩
  intro r hr
  rw [waveFrame_pixel F hF t x r hx hr]
  by_cases h : (r : Int) = ⌊waveY F t x⌋
  · simp [h]
  · simp [h, blueIndex, whiteIndex]

theorem C6_foreground_row_is_floor_witness :
    (ratArith.Sound ∧ 1 < 400) ∧
    waveY ratArith 0 1 = ratArith.rnd (ratArith.rnd (100 * ratArith.sin
      (ratArith.rnd (ratArith.rnd (((1 : Nat) : ℚ) * ratArith.rnd (1 / 100))
        + ratArith.rnd (ratArith.rnd ((0 : Nat) : ℚ) / 6)))) + 150) ∧
    toInt (waveY ratArith 0 1) = ⌊waveY ratArith 0 1⌋ ∧
    (50 ≤ ⌊waveY ratArith 0 1⌋ ∧ ⌊waveY ratArith 0 1⌋ ≤ 250) ∧
    max 0 (min 299 ⌊waveY ratArith 0 1⌋) = ⌊waveY ratArith 0 1⌋ ∧
    (∀ r : Nat, r < 300 →
      ((waveFrame ratArith 0).ColorIndexAt ((1 : Nat) : Int) r = blueIndex
        ↔ (r : Int) = ⌊waveY ratArith 0 1⌋)) :=
  ⟨⟨ratArith_sound, by decide⟩, C6_foreground_row_is_floor ratArith 0 1 ratArith_sound (by decide)⟩

end MJpeg

namespace MJpeg

/-! ## The solid frame of `getJPEG` -/

theorem filledTo_set (W H : Nat) (c : color.RGBA) (x y : Nat) (im : image.RGBA) (hx : x < W)
    (hy : y < H) (h : FilledTo W H c (y * W + x) im) :
    FilledTo W H c (y * W + x + 1) (im.SetRGBA (0 + (x : Int)) (0 + (y : Int)) c) := by
  obtain ⟨h1, h2, h3, h4⟩ := h
  have hlt : y * W + x < W * H := by
    have : (y + 1) * W ≤ H * W := Nat.mul_le_mul_right W (by omega)
    have e1 : (y + 1) * W = y * W + W := by ring
    have e2 : H * W = W * H := by ring
    omega
  have hin : image.Point.In ⟨0 + (x : Int), 0 + (y : Int)⟩ ⟨⟨0, 0⟩, ⟨(W : Int), (H : Int)⟩⟩
      = true := by
    simp [image.Point.In]; omega
  have hoff : ((0 + (y : Int) - 0) * (W : Int) + (0 + (x : Int) - 0)).toNat = y * W + x := by
    have : (0 + (y : Int) - 0) * (W : Int) + (0 + (x : Int) - 0) = ((y * W + x : Nat) : Int) := by
      push_cast; ring
    rw [this, Int.toNat_natCast]
  simp only [image.RGBA.SetRGBA, h1, hin, if_true, image.RGBA.PixOffset, h2, hoff]
  refine ⟨rfl, rfl, by simp [h3], ?_⟩
  intro i hi
  simp only []
  rw [List.getElem?_set]
  by_cases e : y * W + x = i
  · subst e
    rw [if_pos rfl, if_pos (by omega), if_pos (by omega)]
  · rw [if_neg e, h4 i hi]
    by_cases c1 : i < y * W + x
    · rw [if_pos c1, if_pos (by omega)]
    · rw [if_neg c1, if_neg (by omega)]

end MJpeg

namespace MJpeg

theorem intRange_zero_natCast (n : Nat) :
    intRange 0 (n : Int) = (List.range n).map fun (i : Nat) => (0 : Int) + (i : Int) := by
  simp [intRange]

theorem filledTo_row (W H : Nat) (c : color.RGBA) (y : Nat) (hy : y < H) :
    ∀ (m : Nat) (im : image.RGBA), m ≤ W → FilledTo W H c (y * W) im →
      FilledTo W H c (y * W + m)
        (((List.range m).map fun (i : Nat) => (0 : Int) + (i : Int)).foldl
          (fun im x => im.SetRGBA x (0 + (y : Int)) c) im) := by
  intro m
  induction m with
  | zero => intro im _ h; simpa using h
  | succ m ih =>
    intro im hm h
    rw [List.range_succ, List.map_append, List.foldl_append]
    simp only [List.map_cons, List.map_nil, List.foldl_cons, List.foldl_nil]
    have := filledTo_set W H c m y _ (by omega) hy (ih im (by omega) h)
    rwa [Nat.add_assoc] at this

theorem filledTo_rows (W H : Nat) (c : color.RGBA) :
    ∀ (n : Nat) (im : image.RGBA), n ≤ H → FilledTo W H c 0 im →
      FilledTo W H c (n * W)
        (((List.range n).map fun (i : Nat) => (0 : Int) + (i : Int)).foldl
          (fun im y => ((List.range W).map fun (i : Nat) => (0 : Int) + (i : Int)).foldl
            (fun im x => im.SetRGBA x y c) im) im) := by
  intro n
  induction n with
  | zero => intro im _ h; simpa using h
  | succ n ih =>
    intro im hn h
    rw [List.range_succ, List.map_append, List.foldl_append]
    simp only [List.map_cons, List.map_nil, List.foldl_cons, List.foldl_nil]
    have := filledTo_row W H c n (by omega) W _ (le_refl _) (ih im (by omega) h)
    have e : (n + 1) * W = n * W + W := by ring
    rwa [e]

theorem clip_natCast (W H : Nat) (hW : 1 ≤ W) (hH : 1 ≤ H) (src : image.Uniform) :
    ((⟨⟨0, 0⟩, ⟨(W : Int), (H : Int)⟩⟩ : image.Rectangle).Intersect
        ⟨⟨0, 0⟩, ⟨(W : Int), (H : Int)⟩⟩).Intersect (src.Bounds.Add (⟨0, 0⟩ : image.Point))
      = ⟨⟨0, 0⟩, ⟨((min W 1000000000 : Nat) : Int), ((min H 1000000000 : Nat) : Int)⟩⟩ := by
  have e1 : (⟨⟨0, 0⟩, ⟨(W : Int), (H : Int)⟩⟩ : image.Rectangle).Intersect
      ⟨⟨0, 0⟩, ⟨(W : Int), (H : Int)⟩⟩ = ⟨⟨0, 0⟩, ⟨(W : Int), (H : Int)⟩⟩ := by
    simp [image.Rectangle.Intersect, image.Rectangle.Empty]
    omega
  rw [e1]
  simp only [image.Rectangle.Intersect, image.Uniform.Bounds, image.Rectangle.Add,
    image.Rectangle.Empty]
  by_cases cW : W ≤ 1000000000 <;> by_cases cH : H ≤ 1000000000
  · have m1 : min W 1000000000 = W := by omega
    have m2 : min H 1000000000 = H := by omega
    have n1 : ¬ (1000000000 < W) := by omega
    have n2 : ¬ (1000000000 < H) := by omega
    rw [m1, m2]
    simp [n1, n2]
    omega
  · have m1 : min W 1000000000 = W := by omega
    have m2 : min H 1000000000 = 1000000000 := by omega
    have n1 : ¬ (1000000000 < W) := by omega
    have n2 : 1000000000 < H := by omega
    rw [m1, m2]
    simp [n1, n2]
    omega
  · have m1 : min W 1000000000 = 1000000000 := by omega
    have m2 : min H 1000000000 = H := by omega
    have n1 : 1000000000 < W := by omega
    have n2 : ¬ (1000000000 < H) := by omega
    rw [m1, m2]
    simp [n1, n2]
    omega
  · have m1 : min W 1000000000 = 1000000000 := by omega
    have m2 : min H 1000000000 = 1000000000 := by omega
    have n1 : 1000000000 < W := by omega
    have n2 : 1000000000 < H := by omega
    rw [m1, m2]
    simp [n1, n2]

theorem blank_filled (W H : Nat) (c : color.RGBA) :
    FilledTo W H c 0 (image.blankRGBA ⟨⟨0, 0⟩, ⟨(W : Int), (H : Int)⟩⟩) := by
  have hl : (image.Rectangle.Dx ⟨⟨0, 0⟩, ⟨(W : Int), (H : Int)⟩⟩
      * image.Rectangle.Dy ⟨⟨0, 0⟩, ⟨(W : Int), (H : Int)⟩⟩).toNat = W * H := by
    simp only [image.Rectangle.Dx, image.Rectangle.Dy, sub_zero]
    rw [← Nat.cast_mul, Int.toNat_natCast]
  refine ⟨rfl, by simp [image.blankRGBA, image.Rectangle.Dx], ?_, ?_⟩
  · simp only [image.blankRGBA, List.length_replicate, hl]
  · intro i hi
    simp only [image.blankRGBA, hl, List.getElem?_replicate, hi, if_true, Nat.not_lt_zero,
      if_false]

theorem solidFrame_unfold (W H : Nat) (c : color.RGBA) (hW : 1 ≤ W) (hH : 1 ≤ H) :
    solidFrame (W : Int) (H : Int) c
      = ((List.range (min H 1000000000)).map fun (i : Nat) => (0 : Int) + (i : Int)).foldl
          (fun im y => ((List.range (min W 1000000000)).map
            fun (i : Nat) => (0 : Int) + (i : Int)).foldl (fun im x => im.SetRGBA x y c) im)
          (image.blankRGBA ⟨⟨0, 0⟩, ⟨(W : Int), (H : Int)⟩⟩) := by
  have hb : (image.blankRGBA ⟨⟨0, 0⟩, ⟨(W : Int), (H : Int)⟩⟩).Bounds
      = ⟨⟨0, 0⟩, ⟨(W : Int), (H : Int)⟩⟩ := rfl
  unfold solidFrame draw.Draw
  simp only [rect_natCast, hb, clip_natCast W H hW hH, intRange_zero_natCast]

theorem solidFrame_filled (W H : Nat) (c : color.RGBA) (hW : 1 ≤ W) (hH : 1 ≤ H)
    (hW' : W ≤ 1000000000) (hH' : H ≤ 1000000000) :
    FilledTo W H c (H * W) (solidFrame (W : Int) (H : Int) c) := by
  rw [solidFrame_unfold W H c hW hH, Nat.min_eq_left hW', Nat.min_eq_left hH']
  exact filledTo_rows W H c H _ (le_refl _) (blank_filled W H c)

theorem row_unfilled_beyond (W : Nat) (c : color.RGBA) (m : Nat) (hm : m < W) :
    ((([0] : List Nat).map fun (i : Nat) => (0 : Int) + (i : Int)).foldl
      (fun im y => ((List.range m).map fun (i : Nat) => (0 : Int) + (i : Int)).foldl
        (fun im x => im.SetRGBA x y c) im)
      (image.blankRGBA ⟨⟨0, 0⟩, ⟨(W : Int), ((1 : Nat) : Int)⟩⟩)).RGBAAt (m : Int) 0
      = ⟨0, 0, 0, 0⟩ := by
  simp only [List.map_cons, List.map_nil, List.foldl_cons, List.foldl_nil]
  have h0 : FilledTo W 1 c (0 * W) (image.blankRGBA ⟨⟨0, 0⟩, ⟨(W : Int), ((1 : Nat) : Int)⟩⟩) := by
    rw [Nat.zero_mul]; exact blank_filled W 1 c
  obtain ⟨h1, h2, _, h4⟩ := filledTo_row W 1 c 0 (by omega) m _ (by omega) h0
  generalize List.foldl (fun im x => im.SetRGBA x (0 + ((0 : Nat) : Int)) c)
    (image.blankRGBA ⟨⟨0, 0⟩, ⟨(W : Int), ((1 : Nat) : Int)⟩⟩)
    (List.map (fun (i : Nat) => (0 : Int) + (i : Int)) (List.range m)) = im at h1 h2 h4 ⊢
  have hin : image.Point.In ⟨(m : Int), (0 : Int)⟩
      ⟨⟨0, 0⟩, ⟨(W : Int), ((1 : Nat) : Int)⟩⟩ = true := by
    simp [image.Point.In]; omega
  have hoff : (((0 : Int) - 0) * (W : Int) + ((m : Int) - 0)).toNat = m := by
    simp
  have hget := h4 m (by omega)
  rw [if_neg (by omega)] at hget
  rw [image.RGBA.RGBAAt, h1, hin, if_pos rfl, image.RGBA.PixOffset, h1, h2, hoff,
    List.getD_eq_getElem?_getD, hget]
  rfl

theorem wide_row_unfilled (W : Nat) (c : color.RGBA) (hW : 1000000000 < W) :
    (solidFrame (W : Int) ((1 : Nat) : Int) c).RGBAAt ((min W 1000000000 : Nat) : Int) 0
      = ⟨0, 0, 0, 0⟩ := by
  have m1 : min 1 1000000000 = 1 := by decide
  have r1 : List.range 1 = [0] := rfl
  rw [solidFrame_unfold W 1 c (by omega) (le_refl 1), m1, r1]
  exact row_unfilled_beyond W c (min W 1000000000) (by omega)

end MJpeg

namespace MJpeg

/-- C8 as stated fails for large frames. With `w = h = 2^31` the buffer length
`4 * w * h` does not fit an `int`, `image.NewRGBA` panics and `getJPEG` builds no
raster. With `w = 2 * 10^9` and `h = 1` the raster is built, but `draw.Draw` clips the
fill to the bounds of `image.Uniform`, which end at `10^9`: the pixel in column
`10^9` keeps the zero colour and is not red. -/
theorem C8_large_frames_fail :
    getJPEG tallyEncoder 2147483648 2147483648 red = none ∧
    getJPEG tallyEncoder 2000000000 1 red
      = some (tallyEncoder (.rgba (solidFrame 2000000000 1 red))) ∧
    (solidFrame 2000000000 1 red).RGBAAt 1000000000 0 = ⟨0, 0, 0, 0⟩ ∧
    (solidFrame 2000000000 1 red).RGBAAt 1000000000 0 ≠ red := by
  have h3 : (solidFrame 2000000000 1 red).RGBAAt 1000000000 0 = ⟨0, 0, 0, 0⟩ :=
    wide_row_unfilled 2000000000 red (by norm_num)
  refine ⟨?_, ?_, h3, ?_⟩
  · have e : image.Rect 0 0 2147483648 2147483648 = ⟨⟨0, 0⟩, ⟨2147483648, 2147483648⟩⟩ := by
      simp [image.Rect]
    unfold getJPEG
    rw [e]
    have n : image.NewRGBA ⟨⟨0, 0⟩, ⟨2147483648, 2147483648⟩⟩ = none := by
      unfold image.NewRGBA image.mul3NonNeg
      norm_num [image.Rectangle.Dx, image.Rectangle.Dy]
    rw [n]
    rfl
  · exact getJPEG_natCast tallyEncoder 2000000000 1 red (by norm_num) (by norm_num)
  · rw [h3]
    decide

end MJpeg

namespace MJpeg

/-- C8, as the code has it. For every width `w` and height `h` from 1 to `10^9` whose
buffer of `4 * w * h` bytes is within what `make` accepts (`2^48` bytes), and every
colour `c`, `getJPEG` does not panic and the raster it hands to the encoder has the
bounds `(0,0)-(w,h)` and exactly `w*h` pixels, every one of which equals `c`. The
raster is a function of `w`, `h` and `c` alone. -/
theorem C8_solid_frame_uniform (enc : Image → Bytes) (w h : Int) (c : color.RGBA)
    (hw : 1 ≤ w) (hh : 1 ≤ h) (hw' : w ≤ 1000000000) (hh' : h ≤ 1000000000)
    (hmem : 4 * w * h ≤ 2 ^ 48) :
    getJPEG enc w h c = some (enc (.rgba (solidFrame w h c))) ∧
    (solidFrame w h c).Bounds = ⟨⟨0, 0⟩, ⟨w, h⟩⟩ ∧
    (solidFrame w h c).Pix.length = (w * h).toNat ∧
    (∀ p, p ∈ (solidFrame w h c).Pix → p = c) ∧
    (∀ x y : Int, 0 ≤ x → x < w → 0 ≤ y → y < h → (solidFrame w h c).RGBAAt x y = c) := by
  obtain ⟨W, rfl⟩ : ∃ W : Nat, w = (W : Int) := ⟨w.toNat, by omega⟩
  obtain ⟨H, rfl⟩ : ∃ H : Nat, h = (H : Int) := ⟨h.toNat, by omega⟩
  have hmem' : 4 * W * H ≤ 2 ^ 48 := by exact_mod_cast hmem
  obtain ⟨h1, h2, h3, h4⟩ := solidFrame_filled W H c (by omega) (by omega) (by omega) (by omega)
  have hall : ∀ i, i < W * H → (solidFrame (W : Int) (H : Int) c).Pix[i]? = some c := by
    intro i hi
    rw [h4 i hi, if_pos (by rw [Nat.mul_comm]; exact hi)]
  refine ⟨getJPEG_natCast enc W H c (by omega) hmem', h1, ?_, ?_, ?_⟩
  · rw [h3, ← Nat.cast_mul, Int.toNat_natCast]
  · intro p hp
    obtain ⟨i, hi, rfl⟩ := List.getElem_of_mem hp
    have := hall i (by rw [← h3]; exact hi)
    rw [List.getElem?_eq_getElem hi] at this
    exact Option.some.inj this
  · intro x y hx0 hxw hy0 hyh
    obtain ⟨X, rfl⟩ : ∃ X : Nat, x = (X : Int) := ⟨x.toNat, by omega⟩
    obtain ⟨Y, rfl⟩ : ∃ Y : Nat, y = (Y : Int) := ⟨y.toNat, by omega⟩
    have hX : X < W := by omega
    have hY : Y < H := by omega
    have hin : image.Point.In ⟨(X : Int), (Y : Int)⟩ ⟨⟨0, 0⟩, ⟨(W : Int), (H : Int)⟩⟩ = true := by
      simp [image.Point.In]; omega
    have hoff : (((Y : Int) - 0) * (W : Int) + ((X : Int) - 0)).toNat = Y * W + X := by
      have : ((Y : Int) - 0) * (W : Int) + ((X : Int) - 0) = ((Y * W + X : Nat) : Int) := by
        push_cast; ring
      rw [this, Int.toNat_natCast]
    have hlt : Y * W + X < W * H := by
      have : (Y + 1) * W ≤ H * W := Nat.mul_le_mul_right W (by omega)
      have e1 : (Y + 1) * W = Y * W + W := by ring
      have e2 : H * W = W * H := by ring
      omega
    rw [image.RGBA.RGBAAt, h1, hin, if_pos rfl, image.RGBA.PixOffset, h1, h2, hoff,
      List.getD_eq_getElem?_getD, hall _ hlt]
    rfl

theorem C8_solid_frame_uniform_witness :
    ((1 : Int) ≤ 200 ∧ (1 : Int) ≤ 200 ∧ (200 : Int) ≤ 1000000000 ∧ (200 : Int) ≤ 1000000000 ∧
      (4 : Int) * 200 * 200 ≤ 2 ^ 48) ∧
    getJPEG tallyEncoder 200 200 red = some (tallyEncoder (.rgba (solidFrame 200 200 red))) ∧
    (solidFrame 200 200 red).Bounds = ⟨⟨0, 0⟩, ⟨200, 200⟩⟩ ∧
    (solidFrame 200 200 red).Pix.length = ((200 : Int) * 200).toNat ∧
    (∀ p, p ∈ (solidFrame 200 200 red).Pix → p = red) ∧
    (∀ x y : Int, 0 ≤ x → x < 200 → 0 ≤ y → y < 200 →
      (solidFrame 200 200 red).RGBAAt x y = red) :=
  ⟨⟨by decide, by decide, by decide, by decide, by norm_num⟩,
    C8_solid_frame_uniform tallyEncoder 200 200 red (by decide) (by decide) (by decide)
      (by decide) (by norm_num)⟩

end MJpeg

namespace MJpeg

/-! ## Payloads and the delimiter line -/

theorem dropLeading_none_append : ∀ (d a r : Bytes), dropLeading d a = none →
    d.length ≤ a.length → dropLeading d (a ++ r) = none := by
  intro d
  induction d with
  | nil => intro a r h _; simp [dropLeading] at h
  | cons x d ih =>
    intro a r h hl
    cases a with
    | nil => simp at hl
    | cons y a =>
      simp only [List.cons_append, dropLeading] at h ⊢
      by_cases e : x = y
      · rw [if_pos e] at h ⊢
        exact ih a r h (by simpa using hl)
      · rw [if_neg e]

theorem delimiter_cons : delimiter = 13 :: delimiter.tail := by decide

theorem length_delimiter : delimiter.length = 14 := by decide

theorem splitAtDelimiter_free : ∀ (p rest : Bytes), DelimiterFree p →
    splitAtDelimiter (p ++ delimiter ++ rest) = some (p, rest) := by
  intro p
  induction p with
  | nil =>
    intro rest _
    have e : ([] : Bytes) ++ delimiter ++ rest = 13 :: (delimiter.tail ++ rest) := by
      rw [List.nil_append]
      conv_lhs => rw [delimiter_cons]
      rfl
    have e2 : (13 : UInt8) :: (delimiter.tail ++ rest) = delimiter ++ rest := by
      conv_rhs => rw [delimiter_cons]
      rfl
    rw [e, splitAtDelimiter, e2, dropLeading_append]
  | cons b p ih =>
    intro rest h
    unfold DelimiterFree at h
    rw [List.cons_append, splitAtDelimiter] at h
    rw [List.cons_append, List.cons_append, splitAtDelimiter]
    cases hd : dropLeading delimiter (b :: (p ++ delimiter)) with
    | some r => rw [hd] at h; simp at h
    | none =>
      rw [hd] at h
      have hn : dropLeading delimiter (b :: (p ++ delimiter ++ rest)) = none := by
        have := dropLeading_none_append delimiter (b :: (p ++ delimiter)) rest hd
          (by simp; omega)
        simpa using this
      rw [hn]
      cases hs : splitAtDelimiter (p ++ delimiter) with
      | none => rw [hs] at h; simp at h
      | some x =>
        rw [hs] at h
        simp only [Option.map_some', Option.some.injEq, Prod.mk.injEq, List.cons.injEq,
          true_and] at h
        have hx : x = (p, []) := Prod.ext h.1 h.2
        rw [ih rest (by unfold DelimiterFree; rw [hs, hx])]
        rfl

end MJpeg

namespace MJpeg

theorem scanPart_header (q p rest : Bytes) (h : DelimiterFree p) :
    scanPart (partHeader q ++ p ++ delimiter ++ rest) = some (q.length, p, rest) := by
  unfold scanPart partHeader
  simp only [List.append_assoc, dropLeading_append, Option.bind_some, Itoa_len]
  rw [ascii_blank]
  simp only [Option.some_bind]
  rw [List.takeWhile_append_of_pos (formatNat_digits _),
    List.dropWhile_append_of_pos (formatNat_digits _)]
  have e : ([13, 10, 13, 10] : Bytes) ++ (p ++ (delimiter ++ rest))
      = 13 :: ([10, 13, 10] ++ (p ++ (delimiter ++ rest))) := rfl
  rw [e, List.takeWhile_cons_of_neg (by simp [isDigit_cr]),
    List.dropWhile_cons_of_neg (by simp [isDigit_cr]), List.append_nil, parseNat_formatNat]
  have e2 : (13 : UInt8) :: ([10, 13, 10] ++ (p ++ (delimiter ++ rest)))
      = [13, 10, 13, 10] ++ (p ++ (delimiter ++ rest)) := rfl
  simp only [Option.some_bind, e2, dropLeading_append]
  rw [← List.append_assoc, splitAtDelimiter_free p rest h]
  rfl

theorem scanPart_part (p rest : Bytes) (h : DelimiterFree p) :
    scanPart (partHeader p ++ p ++ delimiter ++ rest) = some (p.length, p, rest) :=
  scanPart_header p p rest h

theorem delimiterFree_nil : DelimiterFree [] := by
  unfold DelimiterFree
  have e : ([] : Bytes) ++ delimiter = 13 :: delimiter.tail := by
    rw [List.nil_append]; exact delimiter_cons
  have e2 : (13 : UInt8) :: delimiter.tail = delimiter ++ [] := by
    rw [List.append_nil]; exact delimiter_cons.symm
  rw [e, splitAtDelimiter, e2, dropLeading_append]

theorem delimiterFree_markers : DelimiterFree [255, 216, 255, 217] := by
  unfold DelimiterFree
  decide

theorem scanParts_tailStream : ∀ (ps : List Bytes) (fuel : Nat),
    (∀ p, p ∈ ps → DelimiterFree p) → ps.length ≤ fuel →
    scanParts fuel (tailStream ps) = some (ps.map fun p => (p.length, p)) := by
  intro ps
  induction ps with
  | nil => intro fuel _ _; cases fuel <;> rfl
  | cons p ps ih =>
    intro fuel hfree h
    obtain ⟨f, rfl⟩ : ∃ f, fuel = f + 1 := ⟨fuel - 1, by simp at h; omega⟩
    obtain ⟨b, s, hb⟩ : ∃ b s, tailStream (p :: ps) = b :: s := by
      obtain ⟨b, s, e⟩ := partHeader_cons p
      exact ⟨b, s ++ (p ++ (delimiter ++ tailStream ps)), by simp [tailStream, e]⟩
    rw [hb, scanParts, ← hb, tailStream, scanPart_part p _ (hfree p (List.mem_cons_self _ _))]
    simp only [Option.some_bind]
    rw [ih f (fun q hq => hfree q (List.mem_cons_of_mem _ hq)) (by simp at h; omega)]
    rfl

theorem scanStream_wireStream (ps : List Bytes) (hfree : ∀ p, p ∈ ps → DelimiterFree p) :
    scanStream (wireStream ps) = some (ps.map fun p => (p.length, p)) := by
  rw [scanStream, wireStream_eq, dropLeading_append]
  simp only [Option.some_bind]
  exact scanParts_tailStream ps _ hfree (length_le_tailStream ps)

theorem body_getAnimation (enc : Image → Bytes) (s : Sink) (ha : ∀ k, s.accepts k = true) :
    body [ Event.header "Content-Type" "multipart/x-mixed-replace; boundary=abcd4321",
        .write delimiter (s.accepts 0),
        .write (partHeader (enc (.rgba (solidFrame 200 200 red)))) (s.accepts 1),
        .write (enc (.rgba (solidFrame 200 200 red))) (s.accepts 2),
        .write delimiter (s.accepts 3), .flush, .sleep 500000000,
        .write (partHeader (enc (.rgba (solidFrame 200 200 yellow)))) (s.accepts 4),
        .write (enc (.rgba (solidFrame 200 200 yellow))) (s.accepts 5),
        .write delimiter (s.accepts 6), .flush, .sleep 500000000,
        .write (partHeader (enc (.rgba (solidFrame 200 200 green)))) (s.accepts 7),
        .write (enc (.rgba (solidFrame 200 200 green))) (s.accepts 8),
        .write delimiter (s.accepts 9) ]
      = wireStream (animationPayloads enc) := by
  simp [body, ha, wireStream_eq, animationPayloads, tailStream]

theorem body_getSinewaves {R : Type} [LinearOrderedField R] [FloorRing R] (F : FloatArith R)
    (enc : Image → Bytes) (s : Sink) (ha : ∀ k, s.accepts k = true) :
    body ([Event.header "Content-Type" "multipart/x-mixed-replace; boundary=abcd4321",
      Event.write delimiter (s.accepts 0)] ++ roundEvents s 50000000 1 (wavePayloads F enc))
      = wireStream (wavePayloads F enc) := by
  simp [body, ha, wireStream_eq, body_roundEvents s ha]

end MJpeg

namespace MJpeg

/-- C2 as stated fails for a payload that contains the delimiter line. With an encoder
whose output is the 14 bytes of the delimiter line, `getAnimation` writes a first part
whose `Content-Length` parses to 14, while no byte at all lies between the blank line
and the next delimiter line of the body. -/
theorem C2_delimiter_inside_payload :
    ∃ tr s rest, getAnimation delimiterEncoder goodSink = .ok tr ∧
      dropLeading delimiter (body tr) = some s ∧ scanPart s = some (14, [], rest) := by
  refine ⟨_, tailStream (animationPayloads delimiterEncoder),
    delimiter ++ tailStream [delimiterEncoder (.rgba (solidFrame 200 200 yellow)),
      delimiterEncoder (.rgba (solidFrame 200 200 green))],
    getAnimation_trace delimiterEncoder goodSink rfl, ?_, ?_⟩
  · rw [body_getAnimation delimiterEncoder goodSink (fun _ => rfl), wireStream_eq,
      dropLeading_append]
  · have e : tailStream (animationPayloads delimiterEncoder)
        = partHeader delimiter ++ [] ++ delimiter ++ (delimiter ++ tailStream
            [delimiterEncoder (.rgba (solidFrame 200 200 yellow)),
              delimiterEncoder (.rgba (solidFrame 200 200 green))]) := by
      simp [animationPayloads, tailStream, delimiterEncoder]
    rw [e, scanPart_header delimiter [] _ delimiterFree_nil, length_delimiter]

/-- C2, as the code has it. For every payload, empty or not, the decimal parse of the
digits `strconv.Itoa(len(payload))` gives back `len(payload)`. On a response writer
that accepts every write and can flush, a reader of the body of `getAnimation` or
`getSinewaves` that takes, in each part, as many bytes after the blank line as the
`Content-Length` says, gets exactly the payloads, each time standing right before the
delimiter line the handler wrote next. When no payload lets a delimiter line show up
early, a reader that takes the bytes between the blank line and the next delimiter line
finds in each part a `Content-Length` equal to the number of those bytes, which are
the payload. -/
theorem C2_content_length_matches_payload {R : Type} [LinearOrderedField R] [FloorRing R]
    (F : FloatArith R) (enc : Image → Bytes) (s : Sink)
    (hf : s.flusher = true) (ha : ∀ k, s.accepts k = true) :
    (∀ p : Bytes, parseNat (Itoa (len p)) = some p.length) ∧
    (∃ tr, getAnimation enc s = .ok tr ∧ readStream (body tr) = some (animationPayloads enc)) ∧
    (∃ tr, getSinewaves F enc s = .ok tr ∧ readStream (body tr) = some (wavePayloads F enc)) ∧
    ((∀ p, p ∈ animationPayloads enc → DelimiterFree p) →
      ∃ tr, getAnimation enc s = .ok tr ∧
        scanStream (body tr) = some ((animationPayloads enc).map fun p => (p.length, p))) ∧
    ((∀ p, p ∈ wavePayloads F enc → DelimiterFree p) →
      ∃ tr, getSinewaves F enc s = .ok tr ∧
        scanStream (body tr) = some ((wavePayloads F enc).map fun p => (p.length, p))) := by
  refine ⟨fun p => by rw [Itoa_len, parseNat_formatNat],
    ⟨_, getAnimation_trace enc s hf, ?_⟩, ⟨_, getSinewaves_trace F enc s hf, ?_⟩,
    fun h => ⟨_, getAnimation_trace enc s hf, ?_⟩,
    fun h => ⟨_, getSinewaves_trace F enc s hf, ?_⟩⟩
  · rw [body_getAnimation enc s ha, readStream_wireStream]
  · rw [body_getSinewaves F enc s ha, readStream_wireStream]
  · rw [body_getAnimation enc s ha, scanStream_wireStream _ h]
  · rw [body_getSinewaves F enc s ha, scanStream_wireStream _ h]

theorem C2_content_length_matches_payload_witness :
    (goodSink.flusher = true ∧ (∀ k, goodSink.accepts k = true) ∧
      (∀ p, p ∈ animationPayloads markerEncoder → DelimiterFree p) ∧
      (∀ p, p ∈ wavePayloads ratArith markerEncoder → DelimiterFree p)) ∧
    (∃ tr, getAnimation markerEncoder goodSink = .ok tr ∧
      scanStream (body tr) = some ((animationPayloads markerEncoder).map fun p => (p.length, p))) ∧
    (∃ tr, getSinewaves ratArith markerEncoder goodSink = .ok tr ∧
      scanStream (body tr)
        = some ((wavePayloads ratArith markerEncoder).map fun p => (p.length, p))) := by
  have h1 : ∀ p, p ∈ animationPayloads markerEncoder → DelimiterFree p := by
    intro p hp
    have : p = [255, 216, 255, 217] := by
      simpa [animationPayloads, markerEncoder] using hp
    rw [this]; exact delimiterFree_markers
  have h2 : ∀ p, p ∈ wavePayloads ratArith markerEncoder → DelimiterFree p := by
    intro p hp
    unfold wavePayloads at hp
    obtain ⟨k, _, rfl⟩ := List.mem_map.mp hp
    exact delimiterFree_markers
  have h := C2_content_length_matches_payload ratArith markerEncoder goodSink rfl (fun _ => rfl)
  exact ⟨⟨rfl, fun _ => rfl, h1, h2⟩, h.2.2.2.1 h1, h.2.2.2.2 h2⟩

end MJpeg
